import Mathlib

/-!
# dsproxy: buffered batch writer and ingestion handlers

A shallow embedding of `pkg/db`, `pkg/cache`, `pkg/batcher` and `pkg/handler`.
Go pointers to shared objects (`*db.DB`, `*cache.Cache`, `*batcher.Batcher`) become
explicit state that every operation takes and returns.  What the outside world decides
(the Unix clock, whether Postgres or Redis answers with an error, which ready case a
`select` picks) is an explicit argument of the operation.  Go `int`, `int64` and
`time.Duration` values are integers; the only arithmetic that can wrap is the slice
capacity computed in `batcher.New`, which is reduced modulo `2^64` there.
-/

namespace DSProxy

/-! ## pkg/db -/

/-- Record of `pkg/db/db.go`: one row of table `user_data` (`Ts` is a Go `int64`). -/
structure Record where
  UserID : String
  Value : String
  Ts : Int
deriving DecidableEq, Repr

/-- Errors a store call can return: `pgx.ErrNoRows`, or any other error value. -/
inductive DBError where
  | ErrNoRows
  | Other (msg : String)
deriving DecidableEq, Repr

/-- One invocation of `InsertBatch`: whether the context passed to it was already
cancelled, and the slice of rows passed. -/
structure InsertCall where
  ctxDone : Bool
  rows : List Record
deriving DecidableEq, Repr

/-- The store behind `*db.DB`: the contents of `user_data` in insertion order, together
with a log of the calls made on the adapter (the arguments of every `InsertBatch`, as the
`mockDB.batches` slice of `batcher_test.go` records them, and of every `GetLatest`). -/
structure DB where
  table : List Record
  inserts : List InsertCall
  lookups : List String
deriving DecidableEq, Repr

/-- A store with no rows on which no call has been made. -/
def DB.empty : DB := { table := [], inserts := [], lookups := [] }

/-- `(*DB).InsertBatch`: an empty slice returns `nil` without touching the pool; otherwise
the rows are inserted in one transaction.  `fault` is the first error met by `Begin`,
an `Exec` or `Commit`, if any: it is returned, and the deferred `Rollback` leaves the
table as it was. -/
def DB.InsertBatch (d : DB) (ctxDone : Bool) (fault : Option DBError) (rows : List Record) :
    DB × Option DBError :=
  let d1 : DB := { d with inserts := d.inserts ++ [{ ctxDone := ctxDone, rows := rows }] }
  if rows.length = 0 then (d1, none)
  else
    match fault with
    | some e => (d1, some e)
    | none => ({ d1 with table := d1.table ++ rows }, none)

/-- The row `ORDER BY ts DESC LIMIT 1` selects: one with the greatest `Ts` (among equal
timestamps Postgres may return any; the earliest inserted is taken here). -/
def pickLatest : List Record → Option Record
  | [] => none
  | r :: rs =>
    match pickLatest rs with
    | none => some r
    | some m => if m.Ts > r.Ts then some m else some r

/-- `(*DB).GetLatest`: the latest row of `user`; `row.Scan` returns `pgx.ErrNoRows` when
the query selects nothing, and `fault` stands for an error of the pool. -/
def DB.GetLatest (d : DB) (fault : Option DBError) (user : String) :
    DB × Except DBError Record :=
  let d1 : DB := { d with lookups := d.lookups ++ [user] }
  match fault with
  | some e => (d1, .error e)
  | none =>
    match pickLatest (d.table.filter (fun r => r.UserID = user)) with
    | none => (d1, .error .ErrNoRows)
    | some r => (d1, .ok r)

/-- All rows handed to `InsertBatch` so far, batch after batch in call order. -/
def DB.handed (d : DB) : List Record := (d.inserts.map InsertCall.rows).flatten

/-! ## pkg/batcher -/

/-- A buffered Go channel of `struct{}`: its capacity and the number of buffered values. -/
structure Chan where
  cap : Nat
  len : Nat
deriving DecidableEq, Repr

/-- The statement `select { case ch <- struct{}{}: default: }`: buffers one value when
there is room and does nothing otherwise. -/
def Chan.trySend (c : Chan) : Chan :=
  if c.len < c.cap then { c with len := c.len + 1 } else c

/-- A receive `<-ch` that is ready: takes one buffered value; `none` when the channel
holds no value (the case is not ready). -/
def Chan.recv (c : Chan) : Option Chan :=
  if 0 < c.len then some { c with len := c.len - 1 } else none

/-- Batcher of `pkg/batcher/batcher.go`, without its `db` pointer (the store is passed
to `flush` explicitly) and its mutex (every operation below is one critical section or a
sequence of them). -/
structure Batcher where
  batchSize : Int
  interval : Int
  queue : List Record
  ch : Chan
deriving DecidableEq, Repr

/-- Reduction of an integer to the two's-complement range of a Go `int` (64 bits). -/
def wrap64 (x : Int) : Int := (x + 2 ^ 63) % 2 ^ 64 - 2 ^ 63

/-- `batcher.New`.  `make([]db.Record, 0, batchSize*2)` panics when the capacity is
negative, which is the result `none`; the capacity is otherwise only a preallocation.
The channel is `make(chan struct{}, 1)`. -/
def Batcher.New (batchSize : Int) (interval : Int) : Option Batcher :=
  if wrap64 (batchSize * 2) < 0 then none
  else some { batchSize := batchSize, interval := interval, queue := [],
              ch := { cap := 1, len := 0 } }

/-- The critical section of `Enqueue` (lines 32 to 35): append the record and compute
`shouldFlush`. -/
def Batcher.enqueueLocked (b : Batcher) (user val : String) (ts : Int) : Batcher × Bool :=
  let q := b.queue ++ [{ UserID := user, Value := val, Ts := ts }]
  ({ b with queue := q }, decide ((q.length : Int) ≥ b.batchSize))

/-- The tail of `Enqueue` (lines 36 to 41): the non-blocking post of the flush signal. -/
def Batcher.post (b : Batcher) (shouldFlush : Bool) : Batcher :=
  if shouldFlush then { b with ch := b.ch.trySend } else b

/-- `(*Batcher).Enqueue`. -/
def Batcher.Enqueue (b : Batcher) (user val : String) (ts : Int) : Batcher :=
  let r := b.enqueueLocked user val ts
  r.1.post r.2

/-- The critical section of `flush` (lines 61 to 69): nothing when the queue is empty,
otherwise the copy `toWrite` of the queue, and the queue is reset. -/
def Batcher.take (b : Batcher) : Batcher × Option (List Record) :=
  if b.queue.length = 0 then (b, none)
  else ({ b with queue := [] }, some b.queue)

/-- `(*Batcher).flush`: the critical section, then `_ = b.db.InsertBatch(ctx, toWrite)`
whose result is dropped. -/
def Batcher.flush (b : Batcher) (d : DB) (ctxDone : Bool) (fault : Option DBError) :
    Batcher × DB :=
  match b.take with
  | (b1, none) => (b1, d)
  | (b1, some toWrite) => (b1, (d.InsertBatch ctxDone fault toWrite).1)

/-- The channel of a batcher built by `New`: capacity 1, never more than 1 buffered. -/
def Batcher.WF (b : Batcher) : Prop := b.ch.cap = 1 ∧ b.ch.len ≤ 1

instance (b : Batcher) : Decidable b.WF := by unfold Batcher.WF; infer_instance

/-- Whether a flush signal is pending on `b.ch`. -/
def Batcher.pending (b : Batcher) : Prop := 0 < b.ch.len

instance (b : Batcher) : Decidable b.pending := by unfold Batcher.pending; infer_instance

/-- Which ready case the `select` of `Run` takes in one iteration. -/
inductive Wake where
  | Done
  | Signal
  | Tick
deriving DecidableEq, Repr

/-- One iteration of the `for` loop of `Run` taking case `w`.  The result is `none` when
that case is not ready (`<-ctx.Done()` before cancellation, `<-b.ch` on a channel with no
buffered value); otherwise the batcher and store after the `flush` of that case, and
whether the loop goes on (`false` after the `return` of the cancellation case).  The
context handed to `flush` is the one `Run` received. -/
def Batcher.runIter (b : Batcher) (d : DB) (ctxDone : Bool) (w : Wake)
    (fault : Option DBError) : Option (Batcher × DB × Bool) :=
  match w with
  | .Done =>
    if ctxDone then
      let r := b.flush d ctxDone fault
      some (r.1, r.2, false)
    else none
  | .Signal =>
    match b.ch.recv with
    | none => none
    | some c =>
      let r := ({ b with ch := c }).flush d ctxDone fault
      some (r.1, r.2, true)
  | .Tick =>
    let r := b.flush d ctxDone fault
    some (r.1, r.2, true)

/-- Where the goroutine of `Run` is: not started, inside the loop waiting in `select`,
or returned. -/
inductive Phase where
  | NotStarted
  | Waiting
  | Stopped
deriving DecidableEq, Repr

/-- A batcher, its store, the cancellation state of the context given to `Run`, and the
phase of the `Run` goroutine. -/
structure Sys where
  b : Batcher
  d : DB
  ctxDone : Bool
  phase : Phase
deriving DecidableEq, Repr

/-- The events of a run of the batcher: an `Enqueue` call by some producer, the
cancellation of the context, the start of `Run` (`go b.Run(ctx)`), and one iteration of
its loop. -/
inductive Action where
  | enqueue (user val : String) (ts : Int)
  | cancel
  | run
  | wake (w : Wake) (fault : Option DBError)
deriving DecidableEq, Repr

/-- The effect of one event; `none` when the event cannot happen in this state: `Run` is
started once, `time.NewTicker` panics on a non-positive interval, and the loop iterates
only between its start and its return. -/
def Sys.step (s : Sys) : Action → Option Sys
  | .enqueue user val ts => some { s with b := s.b.Enqueue user val ts }
  | .cancel => some { s with ctxDone := true }
  | .run =>
    if s.phase = .NotStarted ∧ 0 < s.b.interval then some { s with phase := .Waiting }
    else none
  | .wake w fault =>
    if s.phase = .Waiting then
      match s.b.runIter s.d s.ctxDone w fault with
      | none => none
      | some (b1, d1, goOn) =>
        some { s with b := b1, d := d1, phase := if goOn then .Waiting else .Stopped }
    else none

/-- The effect of a sequence of events, `none` as soon as one of them cannot happen. -/
def Sys.exec (s : Sys) : List Action → Option Sys
  | [] => some s
  | a :: as =>
    match s.step a with
    | none => none
    | some s1 => s1.exec as

/-- The system around a batcher just built by `New` on store `d`. -/
def Sys.init (batchSize interval : Int) (d : DB) : Option Sys :=
  match Batcher.New batchSize interval with
  | none => none
  | some b => some { b := b, d := d, ctxDone := false, phase := .NotStarted }

/-- The records of the `Enqueue` calls of a sequence of events, in call order. -/
def Action.enqueued : List Action → List Record
  | [] => []
  | .enqueue user val ts :: as => { UserID := user, Value := val, Ts := ts } :: enqueued as
  | _ :: as => enqueued as

/-- An operation on a batcher and its store: an `Enqueue` call or one execution of
`flush`, with the state of the context and the outcome of the store for that flush. -/
inductive Op where
  | enqueue (user val : String) (ts : Int)
  | flush (ctxDone : Bool) (fault : Option DBError)
deriving DecidableEq, Repr

/-- Whether an operation is an `Enqueue` call. -/
def Op.isEnqueue : Op → Bool
  | .enqueue _ _ _ => true
  | .flush _ _ => false

/-- The effect of one operation. -/
def Op.apply (s : Batcher × DB) : Op → Batcher × DB
  | .enqueue user val ts => (s.1.Enqueue user val ts, s.2)
  | .flush ctxDone fault => s.1.flush s.2 ctxDone fault

/-- The effect of a sequence of operations, first to last. -/
def Op.run (s : Batcher × DB) (ops : List Op) : Batcher × DB := ops.foldl Op.apply s

/-- The records of the `Enqueue` calls of a sequence of operations, in call order. -/
def Op.enqueued : List Op → List Record
  | [] => []
  | .enqueue user val ts :: ops => { UserID := user, Value := val, Ts := ts } :: enqueued ops
  | .flush _ _ :: ops => enqueued ops

/-- A sequence of `Enqueue` calls, one per record, with nothing in between. -/
def Batcher.enqueueAll (b : Batcher) (rs : List Record) : Batcher :=
  rs.foldl (fun acc r => acc.Enqueue r.UserID r.Value r.Ts) b

/-! ## pkg/cache -/

/-- Errors of the cache adapter: `redis.Nil` (no such key), or any other error. -/
inductive CacheError where
  | Nil
  | Other (msg : String)
deriving DecidableEq, Repr

/-- A key held by Redis with its value and the Unix time (seconds) at which it expires. -/
structure CacheEntry where
  key : String
  value : String
  expiresAt : Int
deriving DecidableEq, Repr

/-- A call on the cache adapter. -/
inductive CacheOp where
  | set (key val : String)
  | get (key : String)
deriving DecidableEq, Repr

/-- The Redis instance behind `*cache.Cache`: its live keys (at most one entry per key,
newest first) and a log of the calls made on the adapter. -/
structure Cache where
  entries : List CacheEntry
  ops : List CacheOp
deriving DecidableEq, Repr

/-- A cache with no key on which no call has been made. -/
def Cache.empty : Cache := { entries := [], ops := [] }

/-- The expiry `5*time.Minute` of `Set`, in seconds. -/
def Cache.ttl : Int := 5 * 60

/-- `(*Cache).Set`: stores `val` under `key` for `5*time.Minute`, replacing an earlier
value; `fault` is the error of the client, if any, and then nothing is stored. -/
def Cache.Set (c : Cache) (now : Int) (fault : Option CacheError) (key val : String) :
    Cache × Option CacheError :=
  let c1 : Cache := { c with ops := c.ops ++ [.set key val] }
  match fault with
  | some e => (c1, some e)
  | none =>
    ({ c1 with entries := { key := key, value := val, expiresAt := now + Cache.ttl } ::
                 c1.entries.filter (fun e => e.key ≠ key) }, none)

/-- `(*Cache).Get`: the value under `key` when the key is held and has not expired,
`redis.Nil` otherwise; `fault` is the error of the client, if any. -/
def Cache.Get (c : Cache) (now : Int) (fault : Option CacheError) (key : String) :
    Cache × Except CacheError String :=
  let c1 : Cache := { c with ops := c.ops ++ [.get key] }
  match fault with
  | some e => (c1, .error e)
  | none =>
    match c.entries.find? (fun e => e.key = key) with
    | none => (c1, .error .Nil)
    | some e => if now < e.expiresAt then (c1, .ok e.value) else (c1, .error .Nil)

/-! ## pkg/handler -/

/-- WriteReq of `handler.go`: the decoded body of `POST /write`. -/
structure WriteReq where
  UserID : String
  Value : String
  Ts : Int
deriving DecidableEq, Repr

/-- What `Decode` leaves in a `WriteReq` for a JSON object with none of the three keys:
every field keeps its Go zero value. -/
def WriteReq.zero : WriteReq := { UserID := "", Value := "", Ts := 0 }

/-- The part of an HTTP request `writeHandler` looks at: the method, and the result of
`json.NewDecoder(r.Body).Decode(&req)` (the error text, or the decoded request). -/
structure WriteInput where
  method : String
  decoded : Except String WriteReq

/-- What a handler wrote to its `http.ResponseWriter`: status code and body. -/
structure Response where
  status : Nat
  body : String
deriving DecidableEq, Repr

/-- `http.Error(w, msg, code)`: the status, and the message followed by a newline. -/
def httpError (msg : String) (code : Nat) : Response := { status := code, body := msg ++ "\n" }

/-- Handler of `handler.go`, holding the states its three pointers refer to. -/
structure Handler where
  db : DB
  cache : Cache
  batcher : Batcher
deriving DecidableEq, Repr

/-- `(*Handler).writeHandler`; `now` is `time.Now().Unix()` and `cacheFault` the error of
the cache client during this request, if any. -/
def Handler.writeHandler (h : Handler) (now : Int) (cacheFault : Option CacheError)
    (r : WriteInput) : Handler × Response :=
  if r.method ≠ "POST" then (h, httpError "method" 405)
  else
    match r.decoded with
    | .error msg => (h, httpError msg 400)
    | .ok req0 =>
      let req : WriteReq := if req0.Ts = 0 then { req0 with Ts := now } else req0
      let c := (h.cache.Set now cacheFault req.UserID req.Value).1
      let b := h.batcher.Enqueue req.UserID req.Value req.Ts
      ({ h with cache := c, batcher := b }, { status := 202, body := "accepted" })

/-- The second half of `readHandler` (lines 79 to 89): the fallback to the store. -/
def Handler.readFallback (h : Handler) (dbFault : Option DBError) (user : String) :
    Handler × Response :=
  let g := h.db.GetLatest dbFault user
  let h1 : Handler := { h with db := g.1 }
  match g.2 with
  | .error .ErrNoRows => (h1, httpError "not found" 404)
  | .error _ => (h1, httpError "db error" 500)
  | .ok rec => (h1, { status := 200, body := rec.Value })

/-- `(*Handler).readHandler`; `user` is `r.URL.Query().Get("user_id")`, the empty string
when the parameter is missing. -/
def Handler.readHandler (h : Handler) (now : Int) (cacheFault : Option CacheError)
    (dbFault : Option DBError) (user : String) : Handler × Response :=
  if user = "" then (h, httpError "missing user_id" 400)
  else
    let g := h.cache.Get now cacheFault user
    let h1 : Handler := { h with cache := g.1 }
    match g.2 with
    | .ok val =>
      if val ≠ "" then (h1, { status := 200, body := val })
      else h1.readFallback dbFault user
    | .error _ => h1.readFallback dbFault user

/-- The state used in the examples: empty store and cache, the batcher of `main`
(`batcher.New(pg, 50, 2*time.Second)`). -/
def Handler.fresh : Handler :=
  { db := DB.empty, cache := Cache.empty,
    batcher := { batchSize := 50, interval := 2000000000, queue := [],
                 ch := { cap := 1, len := 0 } } }

/-! ## Goroutines: `Enqueue` callers and `Run` interleaved at the level of `b.mu` -/

/-- Where a goroutine stands.  A caller of `Enqueue` with record `r`: called and not yet
past `b.mu.Lock()`; inside the critical section; past `b.mu.Unlock()` with the value of
`shouldFlush`, before the `select`; returned.  A goroutine running `Run`: blocked in the
`select` of the loop; a case taken and `flush` called, not yet past `b.mu.Lock()`
(`final` tells the cancellation case, after which `Run` returns); inside the critical
section of `flush`; past `b.mu.Unlock()` with the copy `toWrite`, `InsertBatch` not yet
returned; returned. -/
inductive Pc where
  | enqCalled (r : Record)
  | enqLocked (r : Record)
  | enqPosting (shouldFlush : Bool)
  | enqReturned
  | runWaiting
  | runWoken (final : Bool)
  | runLocked (final : Bool)
  | runInserting (toWrite : List Record) (final : Bool)
  | runReturned
deriving DecidableEq, Repr

/-- Whether the goroutine runs `Run`. -/
def Pc.isRun : Pc → Bool
  | .runWaiting | .runWoken _ | .runLocked _ | .runInserting _ _ | .runReturned => true
  | _ => false

/-- Whether the goroutine is executing `flush`: from the call to the return. -/
def Pc.inFlush : Pc → Bool
  | .runWoken _ | .runLocked _ | .runInserting _ _ => true
  | _ => false

/-- Whether the goroutine holds `b.mu`. -/
def Pc.holdsLock : Pc → Bool
  | .enqLocked _ | .runLocked _ => true
  | _ => false

/-- Whether the goroutine is an `Enqueue` between its append and its `select`, with
`shouldFlush` true. -/
def Pc.willSignal : Pc → Bool
  | .enqPosting true => true
  | _ => false

/-- Whether the goroutine is an `Enqueue` between its append and its `select`. -/
def Pc.isPosting : Pc → Bool
  | .enqPosting _ => true
  | _ => false

/-- Whether the goroutine is in `flush` before the end of its critical section. -/
def Pc.willTake : Pc → Bool
  | .runWoken _ | .runLocked _ => true
  | _ => false

/-- The phase a `Run` goroutine moves to when its `flush` returns. -/
def Pc.afterFlush (final : Bool) : Pc := if final then .runReturned else .runWaiting

/-- A batcher shared by goroutines: the batcher and its store, the cancellation state of
the context, whether `b.mu` is held, and where each goroutine stands (in order of
creation). -/
structure Conc where
  b : Batcher
  d : DB
  ctxDone : Bool
  mu : Bool
  threads : List Pc
deriving DecidableEq, Repr

/-- One step of one goroutine, or an event of the environment: a new call of `Enqueue`;
`go b.Run(ctx)`; the cancellation of the context; goroutine `i` gets past `b.mu.Lock()`;
`Enqueue` in `i` appends, computes `shouldFlush` and unlocks; `Enqueue` in `i` runs its
`select` and returns; the `select` of `Run` in `i` takes case `w` and calls `flush`;
`flush` in `i` runs its critical section and unlocks; `InsertBatch` called by `i` returns
(with error `fault`, if any) and `flush` returns. -/
inductive Move where
  | call (user val : String) (ts : Int)
  | run
  | cancel
  | lock (i : Nat)
  | append (i : Nat)
  | post (i : Nat)
  | wake (i : Nat) (w : Wake)
  | take (i : Nat)
  | insert (i : Nat) (fault : Option DBError)
deriving DecidableEq, Repr

/-- Whether the move starts a `Run` goroutine. -/
def Move.isRun : Move → Bool
  | .run => true
  | _ => false

/-- The goroutine that takes the step, for the moves that are steps of a goroutine. -/
def Move.thread : Move → Option Nat
  | .lock i | .append i | .post i | .take i => some i
  | .wake i _ | .insert i _ => some i
  | _ => none

/-- The effect of a move; `none` when it cannot happen in this state: `Lock` does not
return while the mutex is held, a goroutine only takes the step it stands before, a
`select` case is only taken when ready, and `time.NewTicker` panics on a non-positive
interval. -/
def Conc.step (s : Conc) : Move → Option Conc
  | .call user val ts =>
    some { s with threads := s.threads ++ [.enqCalled { UserID := user, Value := val, Ts := ts }] }
  | .run =>
    if 0 < s.b.interval then some { s with threads := s.threads ++ [.runWaiting] } else none
  | .cancel => some { s with ctxDone := true }
  | .lock i =>
    if s.mu then none
    else
      match s.threads[i]? with
      | some (.enqCalled r) => some { s with mu := true, threads := s.threads.set i (.enqLocked r) }
      | some (.runWoken final) =>
        some { s with mu := true, threads := s.threads.set i (.runLocked final) }
      | _ => none
  | .append i =>
    match s.threads[i]? with
    | some (.enqLocked r) =>
      let e := s.b.enqueueLocked r.UserID r.Value r.Ts
      some { s with b := e.1, mu := false, threads := s.threads.set i (.enqPosting e.2) }
    | _ => none
  | .post i =>
    match s.threads[i]? with
    | some (.enqPosting shouldFlush) =>
      some { s with b := s.b.post shouldFlush, threads := s.threads.set i .enqReturned }
    | _ => none
  | .wake i w =>
    match s.threads[i]? with
    | some .runWaiting =>
      match w with
      | .Done =>
        if s.ctxDone then some { s with threads := s.threads.set i (.runWoken true) } else none
      | .Signal =>
        match s.b.ch.recv with
        | none => none
        | some c =>
          some { s with b := { s.b with ch := c }, threads := s.threads.set i (.runWoken false) }
      | .Tick => some { s with threads := s.threads.set i (.runWoken false) }
    | _ => none
  | .take i =>
    match s.threads[i]? with
    | some (.runLocked final) =>
      match s.b.take with
      | (b1, none) =>
        some { s with b := b1, mu := false, threads := s.threads.set i (Pc.afterFlush final) }
      | (b1, some toWrite) =>
        some { s with b := b1, mu := false,
                      threads := s.threads.set i (.runInserting toWrite final) }
    | _ => none
  | .insert i fault =>
    match s.threads[i]? with
    | some (.runInserting toWrite final) =>
      some { s with d := (s.d.InsertBatch s.ctxDone fault toWrite).1,
                    threads := s.threads.set i (Pc.afterFlush final) }
    | _ => none

/-- The effect of a sequence of moves, `none` as soon as one of them cannot happen. -/
def Conc.exec (s : Conc) : List Move → Option Conc
  | [] => some s
  | m :: ms =>
    match s.step m with
    | none => none
    | some s1 => s1.exec ms

/-- The state around a batcher just built by `New` on store `d`: no goroutine yet, the
mutex free, the context not cancelled. -/
def Conc.init (batchSize interval : Int) (d : DB) : Option Conc :=
  match Batcher.New batchSize interval with
  | none => none
  | some b => some { b := b, d := d, ctxDone := false, mu := false, threads := [] }

/-- Whether a flush signal is pending on the channel of the batcher. -/
def Conc.signalled (s : Conc) : Bool := decide (0 < s.b.ch.len)

/-- The state C12 speaks of: every `Run` goroutine is waiting in its `select`, and no
`Enqueue` is between its append and its `select`. -/
def Conc.quiet (s : Conc) : Bool :=
  s.threads.all (fun pc => !pc.isPosting && (!pc.isRun || decide (pc = .runWaiting)))

/-- The threshold invariant of the goroutine model for threshold `S`: the batcher has
batch size `S` and a channel of capacity 1, and a queue of length at least `S` comes with
a pending signal, an `Enqueue` about to post one, or a `flush` about to take the queue. -/
def Conc.Covered (S : Int) (s : Conc) : Prop :=
  s.b.batchSize = S ∧ s.b.ch.cap = 1 ∧
  ((s.b.queue.length : Int) ≥ S →
    s.signalled = true ∨ s.threads.any Pc.willSignal = true ∨
      s.threads.any Pc.willTake = true)

/-- The mutex invariant of the goroutine model: the number of goroutines inside a
critical section is 1 when `b.mu` is held and 0 when it is free. -/
def Conc.Mutex (s : Conc) : Prop :=
  s.threads.countP Pc.holdsLock = if s.mu then 1 else 0

/-! ## Basic facts about the batcher -/

theorem New_eq_some {S T : Int} {b : Batcher} (h : Batcher.New S T = some b) :
    b = { batchSize := S, interval := T, queue := [], ch := { cap := 1, len := 0 } } := by
  unfold Batcher.New at h
  split at h
  · cases h
  · exact (Option.some.inj h).symm

theorem Enqueue_queue (b : Batcher) (user val : String) (ts : Int) :
    (b.Enqueue user val ts).queue = b.queue ++ [{ UserID := user, Value := val, Ts := ts }] := by
  unfold Batcher.Enqueue Batcher.post Batcher.enqueueLocked
  dsimp only
  split <;> rfl

theorem Enqueue_batchSize (b : Batcher) (user val : String) (ts : Int) :
    (b.Enqueue user val ts).batchSize = b.batchSize := by
  unfold Batcher.Enqueue Batcher.post Batcher.enqueueLocked
  dsimp only
  split <;> rfl

theorem Enqueue_interval (b : Batcher) (user val : String) (ts : Int) :
    (b.Enqueue user val ts).interval = b.interval := by
  unfold Batcher.Enqueue Batcher.post Batcher.enqueueLocked
  dsimp only
  split <;> rfl

theorem flush_of_nil (b : Batcher) (d : DB) (c : Bool) (f : Option DBError)
    (h : b.queue = []) : b.flush d c f = (b, d) := by
  unfold Batcher.flush Batcher.take
  simp [h]

theorem flush_of_ne_nil (b : Batcher) (d : DB) (c : Bool) (f : Option DBError)
    (h : b.queue ≠ []) :
    b.flush d c f = ({ b with queue := [] }, (d.InsertBatch c f b.queue).1) := by
  unfold Batcher.flush Batcher.take
  have hl : ¬ b.queue.length = 0 := by
    intro h0
    exact h (List.length_eq_zero.mp h0)
  simp [hl]

theorem InsertBatch_inserts (d : DB) (c : Bool) (f : Option DBError) (rows : List Record) :
    (d.InsertBatch c f rows).1.inserts = d.inserts ++ [{ ctxDone := c, rows := rows }] := by
  unfold DB.InsertBatch
  dsimp only
  split
  · rfl
  · split <;> rfl

theorem InsertBatch_lookups (d : DB) (c : Bool) (f : Option DBError) (rows : List Record) :
    (d.InsertBatch c f rows).1.lookups = d.lookups := by
  unfold DB.InsertBatch
  dsimp only
  split
  · rfl
  · split <;> rfl

theorem handed_InsertBatch (d : DB) (c : Bool) (f : Option DBError) (rows : List Record) :
    (d.InsertBatch c f rows).1.handed = d.handed ++ rows := by
  simp [DB.handed, InsertBatch_inserts]

theorem flush_conserves (b : Batcher) (d : DB) (c : Bool) (f : Option DBError) :
    (b.flush d c f).2.handed ++ (b.flush d c f).1.queue = d.handed ++ b.queue := by
  by_cases h : b.queue = []
  · rw [flush_of_nil b d c f h]
  · rw [flush_of_ne_nil b d c f h]
    simp [handed_InsertBatch]

theorem flush_queue (b : Batcher) (d : DB) (c : Bool) (f : Option DBError) :
    (b.flush d c f).1.queue = [] := by
  by_cases h : b.queue = []
  · rw [flush_of_nil b d c f h]; exact h
  · rw [flush_of_ne_nil b d c f h]

theorem apply_conserves (s : Batcher × DB) (op : Op) :
    (Op.apply s op).2.handed ++ (Op.apply s op).1.queue
      = s.2.handed ++ s.1.queue ++ Op.enqueued [op] := by
  cases op with
  | enqueue user val ts => simp [Op.apply, Op.enqueued, Enqueue_queue]
  | flush c f => simp [Op.apply, Op.enqueued, flush_conserves]

theorem enqueued_cons (op : Op) (ops : List Op) :
    Op.enqueued (op :: ops) = Op.enqueued [op] ++ Op.enqueued ops := by
  cases op <;> simp [Op.enqueued]

theorem run_conserves (ops : List Op) : ∀ s : Batcher × DB,
    (Op.run s ops).2.handed ++ (Op.run s ops).1.queue
      = s.2.handed ++ s.1.queue ++ Op.enqueued ops := by
  induction ops with
  | nil => intro s; simp [Op.run, Op.enqueued]
  | cons op ops ih =>
    intro s
    have h := ih (Op.apply s op)
    rw [apply_conserves] at h
    rw [enqueued_cons]
    simpa [Op.run, List.append_assoc] using h

theorem enqueued_length (ops : List Op) :
    (Op.enqueued ops).length = (ops.filter Op.isEnqueue).length := by
  induction ops with
  | nil => rfl
  | cons op ops ih => cases op <;> simp [Op.enqueued, Op.isEnqueue, ih]

/-! ## The claims -/

/-- C1: from a batcher just built by `New` and a store on which no `InsertBatch` has been
made, after any finite sequence of `Enqueue` calls and `flush` executions (each flush
with any context state and any store outcome), the batches handed to `InsertBatch`,
concatenated in call order and followed by the pending queue, are exactly the enqueued
records in arrival order; so the number of records handed plus the queue length is the
number of `Enqueue` calls, and when the enqueued records are pairwise distinct no record
is in two batches (the batches are pairwise disjoint and each is free of repetitions). -/
theorem conservation_of_records (S T : Int) (b : Batcher) (d : DB) (ops : List Op)
    (hnew : Batcher.New S T = some b) (hd : d.inserts = []) :
    (Op.run (b, d) ops).2.handed ++ (Op.run (b, d) ops).1.queue = Op.enqueued ops ∧
    (Op.run (b, d) ops).2.handed.length + (Op.run (b, d) ops).1.queue.length
      = (ops.filter Op.isEnqueue).length ∧
    ((Op.enqueued ops).Nodup →
      ((Op.run (b, d) ops).2.inserts.map InsertCall.rows).Pairwise List.Disjoint ∧
      ∀ c ∈ (Op.run (b, d) ops).2.inserts, c.rows.Nodup) := by
  have hb := New_eq_some hnew
  have hq : b.queue = [] := by rw [hb]
  have hh : d.handed = [] := by simp [DB.handed, hd]
  have key := run_conserves ops (b, d)
  simp only [hq, hh, List.append_nil, List.nil_append] at key
  refine ⟨key, ?_, ?_⟩
  · rw [← enqueued_length, ← key, List.length_append]
  · intro hnd
    rw [← key] at hnd
    have h1 := (List.nodup_append.mp hnd).1
    unfold DB.handed at h1
    rw [List.nodup_flatten] at h1
    refine ⟨h1.2, ?_⟩
    intro c hc
    exact h1.1 c.rows (List.mem_map_of_mem _ hc)

/-- Witness of C1: batch size 3, two `Enqueue` calls, a failing flush, a third `Enqueue`. -/
theorem conservation_of_records_witness :
    (Op.run ({ batchSize := 3, interval := 1, queue := [], ch := { cap := 1, len := 0 } },
        DB.empty)
      [.enqueue "a" "1" 1, .enqueue "b" "2" 2, .flush false (some .ErrNoRows),
       .enqueue "c" "3" 3]).2.handed ++
    (Op.run ({ batchSize := 3, interval := 1, queue := [], ch := { cap := 1, len := 0 } },
        DB.empty)
      [.enqueue "a" "1" 1, .enqueue "b" "2" 2, .flush false (some .ErrNoRows),
       .enqueue "c" "3" 3]).1.queue
      = [⟨"a", "1", 1⟩, ⟨"b", "2", 2⟩, ⟨"c", "3", 3⟩] :=
  (conservation_of_records 3 1 _ DB.empty
    [.enqueue "a" "1" 1, .enqueue "b" "2" 2, .flush false (some .ErrNoRows),
     .enqueue "c" "3" 3] (by decide) rfl).1

/-- C2: `flush` on an empty queue makes no `InsertBatch` call and changes neither the
batcher nor the store; on a non-empty queue it makes exactly one `InsertBatch` call, whose
argument is the whole queue in arrival order, and leaves the batcher as it was but with an
empty queue.  Scenario of `TestBatcher_TimeBasedFlush`: batch size 100, `Run` started, two
records enqueued, one timer tick: a single batch with both records in order, queue empty. -/
theorem flush_spec (b : Batcher) (d : DB) (c : Bool) (f : Option DBError) :
    (b.queue = [] → b.flush d c f = (b, d)) ∧
    (b.queue ≠ [] →
      (b.flush d c f).2.inserts = d.inserts ++ [{ ctxDone := c, rows := b.queue }] ∧
      (b.flush d c f).1 = { b with queue := [] } ∧
      (b.flush d c f).1.queue.length = 0) ∧
    ((Sys.init 100 200000000 DB.empty).bind (fun s0 =>
        s0.exec [.run, .enqueue "user1" "value1" 1, .enqueue "user2" "value2" 2,
                 .wake .Tick none])).map (fun s => (s.d.inserts, s.b.queue.length))
      = some ([{ ctxDone := false, rows := [⟨"user1", "value1", 1⟩, ⟨"user2", "value2", 2⟩] }],
              0) := by
  refine ⟨flush_of_nil b d c f, ?_, by decide⟩
  intro h
  rw [flush_of_ne_nil b d c f h]
  exact ⟨InsertBatch_inserts d c f b.queue, rfl, rfl⟩

/-- Witness of C2: a queue of two records is handed over as one batch. -/
theorem flush_spec_witness :
    ((⟨100, 1, [⟨"user1", "value1", 1⟩, ⟨"user2", "value2", 2⟩], ⟨1, 0⟩⟩ : Batcher).flush
        DB.empty false none).2.inserts
      = [{ ctxDone := false, rows := [⟨"user1", "value1", 1⟩, ⟨"user2", "value2", 2⟩] }] ∧
    ((⟨100, 1, [], ⟨1, 0⟩⟩ : Batcher).flush DB.empty false none)
      = (⟨100, 1, [], ⟨1, 0⟩⟩, DB.empty) :=
  ⟨((flush_spec ⟨100, 1, [⟨"user1", "value1", 1⟩, ⟨"user2", "value2", 2⟩], ⟨1, 0⟩⟩
      DB.empty false none).2.1 (by decide)).1,
   (flush_spec ⟨100, 1, [], ⟨1, 0⟩⟩ DB.empty false none).1 rfl⟩

/-- C3: for a non-empty queue and any two outcomes `f1`, `f2` of the store (success or any
error), the batcher after `flush` is the same: the queue is empty (the dequeued records
are not put back) and the signal channel is untouched; the store has received exactly one
`InsertBatch` call with the queue as argument (no second call), and when that call fails
the table holds no new row.  The loop of `Run` behaves the same on both outcomes: the
iteration happens under one iff under the other, with the same batcher and the same
phase afterwards, so the error reaches no caller. -/
theorem flush_swallows_failure (b : Batcher) (d : DB) (c : Bool) (f1 f2 : Option DBError)
    (h : b.queue ≠ []) :
    (b.flush d c f1).1 = (b.flush d c f2).1 ∧
    (b.flush d c f1).1.queue = [] ∧
    (b.flush d c f1).1.ch = b.ch ∧
    (b.flush d c f1).2.inserts = d.inserts ++ [{ ctxDone := c, rows := b.queue }] ∧
    (∀ e, f1 = some e →
      (d.InsertBatch c f1 b.queue).2 = some e ∧ (b.flush d c f1).2.table = d.table) ∧
    (∀ (s : Sys) (w : Wake), s.b = b → s.d = d →
      (s.step (.wake w f1)).map (fun s1 => (s1.b, s1.phase, s1.ctxDone))
        = (s.step (.wake w f2)).map (fun s1 => (s1.b, s1.phase, s1.ctxDone))) := by
  have hl : ¬ b.queue.length = 0 := fun h0 => h (List.length_eq_zero.mp h0)
  refine ⟨?_, ?_, ?_, ?_, ?_, ?_⟩
  · rw [flush_of_ne_nil b d c f1 h, flush_of_ne_nil b d c f2 h]
  · exact flush_queue b d c f1
  · rw [flush_of_ne_nil b d c f1 h]
  · rw [flush_of_ne_nil b d c f1 h]
    exact InsertBatch_inserts d c f1 b.queue
  · intro e he
    subst he
    rw [flush_of_ne_nil b d c _ h]
    simp [DB.InsertBatch, hl]
  · intro s w hb hd
    have hfl : ∀ (b0 : Batcher) (d0 : DB) (c0 : Bool),
        (b0.flush d0 c0 f1).1 = (b0.flush d0 c0 f2).1 := by
      intro b0 d0 c0
      by_cases h0 : b0.queue = []
      · rw [flush_of_nil b0 d0 c0 f1 h0, flush_of_nil b0 d0 c0 f2 h0]
      · rw [flush_of_ne_nil b0 d0 c0 f1 h0, flush_of_ne_nil b0 d0 c0 f2 h0]
    unfold Sys.step
    by_cases hp : s.phase = .Waiting
    · simp only [hp, if_true]
      cases w with
      | Done =>
        unfold Batcher.runIter
        by_cases hc : s.ctxDone = true
        · simp [hc, hfl]
        · simp [hc]
      | Signal =>
        unfold Batcher.runIter
        cases hr : s.b.ch.recv with
        | none => simp
        | some c1 => simp [hfl]
      | Tick =>
        unfold Batcher.runIter
        simp [hfl]
    · simp [hp]

/-- Witness of C3: a queue of one record, flushed once with success and once with an error. -/
theorem flush_swallows_failure_witness :
    ((⟨3, 1, [⟨"k", "v", 7⟩], ⟨1, 0⟩⟩ : Batcher).flush DB.empty false (some (.Other "down"))).1
      = ((⟨3, 1, [⟨"k", "v", 7⟩], ⟨1, 0⟩⟩ : Batcher).flush DB.empty false none).1 :=
  (flush_swallows_failure ⟨3, 1, [⟨"k", "v", 7⟩], ⟨1, 0⟩⟩ DB.empty false
    (some (.Other "down")) none (by decide)).1

/-- C8: `Enqueue` is total; afterwards the queue is the old queue followed by the record
built from the three arguments, it is longer by exactly one, its first records are the
old queue unchanged and in the same order, and `batchSize` and `interval` are as before. -/
theorem Enqueue_appends (b : Batcher) (user val : String) (ts : Int) :
    (b.Enqueue user val ts).queue
      = b.queue ++ [{ UserID := user, Value := val, Ts := ts }] ∧
    (b.Enqueue user val ts).queue.length = b.queue.length + 1 ∧
    (b.Enqueue user val ts).queue.take b.queue.length = b.queue ∧
    (∀ i, i < b.queue.length → (b.Enqueue user val ts).queue[i]? = b.queue[i]?) ∧
    (b.Enqueue user val ts).queue.getLast? = some { UserID := user, Value := val, Ts := ts } ∧
    (b.Enqueue user val ts).batchSize = b.batchSize ∧
    (b.Enqueue user val ts).interval = b.interval := by
  rw [Enqueue_queue, Enqueue_batchSize, Enqueue_interval]
  refine ⟨rfl, by simp, by simp, ?_, by simp, rfl, rfl⟩
  intro i hi
  exact List.getElem?_append_left hi

/-- Witness of C8: a third record appended to a queue of two. -/
theorem Enqueue_appends_witness :
    ((⟨10, 1, [⟨"user1", "value1", 100⟩, ⟨"user2", "value2", 200⟩], ⟨1, 0⟩⟩ :
        Batcher).Enqueue "user3" "value3" 300).queue[1]? = some ⟨"user2", "value2", 200⟩ :=
  (Enqueue_appends ⟨10, 1, [⟨"user1", "value1", 100⟩, ⟨"user2", "value2", 200⟩], ⟨1, 0⟩⟩
    "user3" "value3" 300).2.2.2.1 1 (by decide)

theorem Enqueue_ch (b : Batcher) (user val : String) (ts : Int) :
    (b.Enqueue user val ts).ch
      = if ((b.queue.length : Int) + 1 ≥ b.batchSize) then b.ch.trySend else b.ch := by
  unfold Batcher.Enqueue Batcher.post Batcher.enqueueLocked
  simp only [List.length_append, List.length_singleton, Nat.cast_add, Nat.cast_one]
  by_cases h : ((b.queue.length : Int) + 1 ≥ b.batchSize)
  · simp [h]
  · simp [h]

theorem enqueueAll_append (b : Batcher) (rs ss : List Record) :
    b.enqueueAll (rs ++ ss) = (b.enqueueAll rs).enqueueAll ss := by
  simp [Batcher.enqueueAll, List.foldl_append]

theorem enqueueAll_below (rs : List Record) : ∀ b : Batcher,
    b.ch.len = 0 → (b.queue.length : Int) + rs.length < b.batchSize →
    (b.enqueueAll rs).ch = b.ch ∧ (b.enqueueAll rs).queue = b.queue ++ rs ∧
    (b.enqueueAll rs).batchSize = b.batchSize := by
  induction rs with
  | nil => intro b _ _; simp [Batcher.enqueueAll]
  | cons r rs ih =>
    intro b h0 hlt
    have hlen : (((r :: rs).length : Nat) : Int) = (rs.length : Int) + 1 := by simp
    rw [hlen] at hlt
    have hch : (b.Enqueue r.UserID r.Value r.Ts).ch = b.ch := by
      rw [Enqueue_ch]
      have : ¬ ((b.queue.length : Int) + 1 ≥ b.batchSize) := by omega
      simp [this]
    have hq := Enqueue_queue b r.UserID r.Value r.Ts
    have hs := Enqueue_batchSize b r.UserID r.Value r.Ts
    have step := ih (b.Enqueue r.UserID r.Value r.Ts) (by rw [hch]; exact h0)
      (by rw [hq, hs]; simp; omega)
    have hunf : b.enqueueAll (r :: rs) = (b.Enqueue r.UserID r.Value r.Ts).enqueueAll rs := by
      simp [Batcher.enqueueAll]
    rw [hunf]
    refine ⟨by rw [step.1, hch], ?_, by rw [step.2.2, hs]⟩
    rw [step.2.1, hq]
    simp

/-- C9: with threshold `S >= 1`, from the batcher built by `New` (empty queue, no signal
pending) and with nothing but `Enqueue` calls, no signal is pending after any of the
first `S-1` calls and exactly one is pending after the `S`-th.  For any batcher with the
channel of `New`, after an `Enqueue` a signal is pending iff one was pending before or the
queue length after the append is at least `batchSize`; the channel never holds more than
one signal; and an `Enqueue` made while a signal is pending still appends its record and
leaves exactly one signal pending. -/
theorem size_trigger_and_coalescing :
    (∀ (S T : Int) (b : Batcher) (rs : List Record), 1 ≤ S → Batcher.New S T = some b →
      (rs.length : Int) = S →
      (∀ k, k < rs.length → (b.enqueueAll (rs.take k)).ch.len = 0) ∧
      (b.enqueueAll rs).ch.len = 1) ∧
    (∀ (b : Batcher) (user val : String) (ts : Int), b.WF →
      ((b.Enqueue user val ts).pending ↔
        (b.pending ∨ ((b.Enqueue user val ts).queue.length : Int) ≥ b.batchSize)) ∧
      (b.Enqueue user val ts).WF ∧
      (b.pending →
        (b.Enqueue user val ts).queue
          = b.queue ++ [{ UserID := user, Value := val, Ts := ts }] ∧
        (b.Enqueue user val ts).ch.len = 1)) := by
  constructor
  · intro S T b rs hS hnew hlen
    have hb := New_eq_some hnew
    have hbs : b.batchSize = S := by rw [hb]
    have hq : b.queue = [] := by rw [hb]
    have hc : b.ch = { cap := 1, len := 0 } := by rw [hb]
    have below : ∀ k, k < rs.length →
        (b.enqueueAll (rs.take k)).ch = b.ch ∧
        (b.enqueueAll (rs.take k)).queue = b.queue ++ rs.take k ∧
        (b.enqueueAll (rs.take k)).batchSize = b.batchSize := by
      intro k hk
      apply enqueueAll_below
      · rw [hc]
      · rw [hq, hbs, ← hlen, List.length_take]
        simp
        omega
    constructor
    · intro k hk
      rw [(below k hk).1, hc]
    · have hpos : 0 < rs.length := by omega
      have hne : rs ≠ [] := List.ne_nil_of_length_pos hpos
      have hsplit : rs = rs.take (rs.length - 1) ++ [rs.getLast hne] := by
        rw [← List.dropLast_eq_take]
        exact (List.dropLast_append_getLast hne).symm
      have hb1 := below (rs.length - 1) (by omega)
      rw [hsplit, enqueueAll_append]
      have hone : ∀ (b1 : Batcher) (r : Record),
          b1.enqueueAll [r] = b1.Enqueue r.UserID r.Value r.Ts := by
        intro b1 r; rfl
      rw [hone, Enqueue_ch, hb1.1, hb1.2.1, hb1.2.2, hc, hq, hbs]
      have hge : (((([] : List Record) ++ rs.take (rs.length - 1)).length : Nat) : Int) + 1
          ≥ S := by
        rw [← hlen]
        simp
        omega
      rw [if_pos hge]
      rfl
  · intro b user val ts hwf
    obtain ⟨hcap, hle⟩ := hwf
    have hq := Enqueue_queue b user val ts
    have hch := Enqueue_ch b user val ts
    have hlenq : (((b.Enqueue user val ts).queue.length : Nat) : Int)
        = (b.queue.length : Int) + 1 := by rw [hq]; simp
    unfold Batcher.pending Batcher.WF
    rw [hlenq, hch]
    by_cases hge : ((b.queue.length : Int) + 1 ≥ b.batchSize)
    · simp only [hge, if_true, or_true, iff_true]
      unfold Chan.trySend
      by_cases hlt : b.ch.len < b.ch.cap
      · simp only [hlt, if_true]
        refine ⟨by omega, ⟨hcap, by omega⟩, fun hp => ⟨hq, by omega⟩⟩
      · simp only [hlt, if_false]
        refine ⟨by omega, ⟨hcap, hle⟩, fun hp => ⟨hq, by omega⟩⟩
    · simp only [hge, if_false, or_false]
      refine ⟨trivial, ⟨hcap, hle⟩, fun hp => ⟨hq, by omega⟩⟩

/-- Witness of C9: threshold 2 and two records; and an `Enqueue` on a pending signal. -/
theorem size_trigger_and_coalescing_witness :
    ((∀ k, k < 2 →
        ((⟨2, 1, [], ⟨1, 0⟩⟩ : Batcher).enqueueAll
          (([⟨"a", "1", 1⟩, ⟨"b", "2", 2⟩] : List Record).take k)).ch.len = 0) ∧
      ((⟨2, 1, [], ⟨1, 0⟩⟩ : Batcher).enqueueAll [⟨"a", "1", 1⟩, ⟨"b", "2", 2⟩]).ch.len = 1) ∧
    ((⟨2, 1, [⟨"a", "1", 1⟩, ⟨"b", "2", 2⟩], ⟨1, 1⟩⟩ : Batcher).Enqueue "c" "3" 3).ch.len = 1 :=
  ⟨size_trigger_and_coalescing.1 2 1 ⟨2, 1, [], ⟨1, 0⟩⟩ [⟨"a", "1", 1⟩, ⟨"b", "2", 2⟩]
      (by decide) (by decide) (by decide),
   ((size_trigger_and_coalescing.2 ⟨2, 1, [⟨"a", "1", 1⟩, ⟨"b", "2", 2⟩], ⟨1, 1⟩⟩ "c" "3" 3
      (by decide)).2.2 (by decide)).2⟩

/-! ## The loop of `Run` -/

theorem runIter_conserves (b b1 : Batcher) (d d1 : DB) (c goOn : Bool) (w : Wake)
    (f : Option DBError) (h : b.runIter d c w f = some (b1, d1, goOn)) :
    d1.handed ++ b1.queue = d.handed ++ b.queue := by
  unfold Batcher.runIter at h
  cases w with
  | Done =>
    simp only at h
    split at h
    · cases h
      exact flush_conserves b d c f
    · cases h
  | Signal =>
    simp only at h
    split at h
    · cases h
    · cases h
      rename_i c1 _
      exact flush_conserves { b with ch := c1 } d c f
  | Tick =>
    cases h
    exact flush_conserves b d c f

theorem step_conserves (s s1 : Sys) (a : Action) (h : s.step a = some s1) :
    s1.d.handed ++ s1.b.queue = s.d.handed ++ s.b.queue ++ Action.enqueued [a] := by
  cases a with
  | enqueue user val ts =>
    simp only [Sys.step, Option.some.injEq] at h
    subst h
    simp [Action.enqueued, Enqueue_queue]
  | cancel =>
    simp only [Sys.step, Option.some.injEq] at h
    subst h
    simp [Action.enqueued]
  | run =>
    simp only [Sys.step] at h
    split at h
    · cases h
      simp [Action.enqueued]
    · cases h
  | wake w f =>
    simp only [Sys.step] at h
    split at h
    · split at h
      · cases h
      · rename_i b1 d1 goOn hr
        cases h
        simpa [Action.enqueued] using runIter_conserves s.b b1 s.d d1 s.ctxDone goOn w f hr
    · cases h

theorem actions_enqueued_cons (a : Action) (as : List Action) :
    Action.enqueued (a :: as) = Action.enqueued [a] ++ Action.enqueued as := by
  cases a <;> simp [Action.enqueued]

theorem actions_enqueued_append (as bs : List Action) :
    Action.enqueued (as ++ bs) = Action.enqueued as ++ Action.enqueued bs := by
  induction as with
  | nil => simp [Action.enqueued]
  | cons a as ih =>
    rw [List.cons_append, actions_enqueued_cons, ih, actions_enqueued_cons a as,
      List.append_assoc]

theorem exec_conserves (as : List Action) : ∀ s s1 : Sys, s.exec as = some s1 →
    s1.d.handed ++ s1.b.queue = s.d.handed ++ s.b.queue ++ Action.enqueued as := by
  induction as with
  | nil =>
    intro s s1 h
    simp only [Sys.exec, Option.some.injEq] at h
    subst h
    simp [Action.enqueued]
  | cons a as ih =>
    intro s s1 h
    simp only [Sys.exec] at h
    split at h
    · cases h
    · rename_i s2 hs
      rw [ih s2 s1 h, step_conserves s s2 a hs, actions_enqueued_cons a as]
      simp [List.append_assoc]

theorem exec_append (as bs : List Action) : ∀ s : Sys,
    s.exec (as ++ bs) = (s.exec as).bind (fun s1 => s1.exec bs) := by
  induction as with
  | nil => intro s; simp [Sys.exec]
  | cons a as ih =>
    intro s
    simp only [List.cons_append, Sys.exec]
    cases s.step a with
    | none => simp
    | some s2 => simpa using ih s2

theorem stopped_step (s s1 : Sys) (a : Action) (hp : s.phase = .Stopped)
    (h : s.step a = some s1) : s1.phase = .Stopped ∧ s1.d = s.d := by
  cases a with
  | enqueue user val ts =>
    simp only [Sys.step, Option.some.injEq] at h
    subst h
    exact ⟨hp, rfl⟩
  | cancel =>
    simp only [Sys.step, Option.some.injEq] at h
    subst h
    exact ⟨hp, rfl⟩
  | run => simp [Sys.step, hp] at h
  | wake w f => simp [Sys.step, hp] at h

theorem stopped_exec (as : List Action) : ∀ s s1 : Sys, s.phase = .Stopped →
    s.exec as = some s1 → s1.phase = .Stopped ∧ s1.d = s.d := by
  induction as with
  | nil =>
    intro s s1 hp h
    simp only [Sys.exec, Option.some.injEq] at h
    subst h
    exact ⟨hp, rfl⟩
  | cons a as ih =>
    intro s s1 hp h
    simp only [Sys.exec] at h
    split at h
    · cases h
    · rename_i s2 hs
      have h2 := stopped_step s s2 a hp hs
      have h3 := ih s2 s1 h2.1 h
      exact ⟨h3.1, h3.2.trans h2.2⟩

theorem step_done (s : Sys) (f : Option DBError) (hp : s.phase = .Waiting)
    (hc : s.ctxDone = true) :
    s.step (.wake .Done f)
      = some { s with b := (s.b.flush s.d true f).1, d := (s.b.flush s.d true f).2,
                      phase := .Stopped } := by
  simp [Sys.step, Batcher.runIter, hp, hc]

theorem step_done_inv (s s1 : Sys) (f : Option DBError)
    (h : s.step (.wake .Done f) = some s1) : s.phase = .Waiting ∧ s.ctxDone = true := by
  simp only [Sys.step, Batcher.runIter] at h
  by_cases hp : s.phase = .Waiting
  · by_cases hc : s.ctxDone = true
    · exact ⟨hp, hc⟩
    · simp [hp, hc] at h
  · simp [hp] at h

/-- C10: in any state where `Run` waits in its `select` and the context is cancelled, the
cancellation case can be taken; it runs `flush` once with the cancelled context and `Run`
returns: the queue is empty, a non-empty queue has been handed to `InsertBatch` as one
batch in arrival order (an empty one causes no call), and from then on, whatever happens,
`Run` stays returned, no loop iteration takes place and the store receives no further
call.  Hence, for a run from `New` on a store with no earlier `InsertBatch` that ends
with the cancellation case, the state is Stopped with an empty queue and the batches
handed to `InsertBatch`, concatenated in call order, are exactly the enqueued records. -/
theorem shutdown_flush :
    (∀ (s : Sys) (f : Option DBError), s.phase = .Waiting → s.ctxDone = true →
      ∃ s1, s.step (.wake .Done f) = some s1 ∧ s1.phase = .Stopped ∧ s1.b.queue = [] ∧
        (s.b.queue ≠ [] →
          s1.d.inserts = s.d.inserts ++ [{ ctxDone := true, rows := s.b.queue }]) ∧
        (s.b.queue = [] → s1.d = s.d) ∧
        (∀ (as : List Action) (s2 : Sys), s1.exec as = some s2 →
          s2.phase = .Stopped ∧ s2.d = s1.d ∧ ∀ w f2, s2.step (.wake w f2) = none)) ∧
    (∀ (S T : Int) (d0 : DB) (s0 s1 : Sys) (pre : List Action) (f : Option DBError),
      Sys.init S T d0 = some s0 → d0.inserts = [] →
      s0.exec (pre ++ [.wake .Done f]) = some s1 →
      s1.phase = .Stopped ∧ s1.b.queue = [] ∧ s1.d.handed = Action.enqueued pre) := by
  have part1 : ∀ (s : Sys) (f : Option DBError), s.phase = .Waiting → s.ctxDone = true →
      ∃ s1, s.step (.wake .Done f) = some s1 ∧ s1.phase = .Stopped ∧ s1.b.queue = [] ∧
        (s.b.queue ≠ [] →
          s1.d.inserts = s.d.inserts ++ [{ ctxDone := true, rows := s.b.queue }]) ∧
        (s.b.queue = [] → s1.d = s.d) ∧
        (∀ (as : List Action) (s2 : Sys), s1.exec as = some s2 →
          s2.phase = .Stopped ∧ s2.d = s1.d ∧ ∀ w f2, s2.step (.wake w f2) = none) := by
    intro s f hp hc
    refine ⟨_, step_done s f hp hc, rfl, flush_queue s.b s.d true f, ?_, ?_, ?_⟩
    · intro hne
      show (s.b.flush s.d true f).2.inserts = _
      rw [flush_of_ne_nil s.b s.d true f hne]
      exact InsertBatch_inserts s.d true f s.b.queue
    · intro hnil
      show (s.b.flush s.d true f).2 = _
      rw [flush_of_nil s.b s.d true f hnil]
    · intro as s2 h2
      have h3 := stopped_exec as _ s2 rfl h2
      refine ⟨h3.1, h3.2, ?_⟩
      intro w f2
      simp [Sys.step, h3.1]
  refine ⟨part1, ?_⟩
  intro S T d0 s0 s1 pre f hinit hd hexec
  rw [exec_append] at hexec
  cases hpre : s0.exec pre with
  | none => simp [hpre] at hexec
  | some s =>
    simp only [hpre, Option.some_bind, Sys.exec] at hexec
    cases hst : s.step (.wake .Done f) with
    | none => simp [hst] at hexec
    | some s3 =>
      simp only [hst, Option.some.injEq] at hexec
      subst hexec
      obtain ⟨hp, hc⟩ := step_done_inv s s3 f hst
      obtain ⟨s4, h4, hph, hq, _, _, _⟩ := part1 s f hp hc
      rw [hst] at h4
      cases h4
      refine ⟨hph, hq, ?_⟩
      have hcons := exec_conserves pre s0 s hpre
      have hstep := step_conserves s s3 _ hst
      have hs0 : s0.d.handed = [] ∧ s0.b.queue = [] := by
        unfold Sys.init at hinit
        cases hn : Batcher.New S T with
        | none => simp [hn] at hinit
        | some b =>
          simp only [hn, Option.some.injEq] at hinit
          subst hinit
          have hb := New_eq_some hn
          refine ⟨by simp [DB.handed, hd], by rw [hb]⟩
      rw [hcons, hs0.1, hs0.2, hq] at hstep
      simpa [Action.enqueued] using hstep

/-- Witness of C10: batch size 5, two records enqueued, cancellation, final flush. -/
theorem shutdown_flush_witness :
    ((⟨⟨5, 1000, [], ⟨1, 0⟩⟩, DB.empty, false, .NotStarted⟩ : Sys).exec
        [.run, .enqueue "a" "1" 1, .enqueue "b" "2" 2, .cancel, .wake .Done none]).map
      (fun s1 => (s1.phase, s1.b.queue, s1.d.inserts))
      = some (.Stopped, [], [{ ctxDone := true, rows := [⟨"a", "1", 1⟩, ⟨"b", "2", 2⟩] }]) ∧
    (DB.handed ⟨[⟨"a", "1", 1⟩, ⟨"b", "2", 2⟩],
        [{ ctxDone := true, rows := [⟨"a", "1", 1⟩, ⟨"b", "2", 2⟩] }], []⟩)
      = Action.enqueued [.run, .enqueue "a" "1" 1, .enqueue "b" "2" 2, .cancel] :=
  ⟨by decide,
   (shutdown_flush.2 5 1000 DB.empty
    ⟨⟨5, 1000, [], ⟨1, 0⟩⟩, DB.empty, false, .NotStarted⟩
    ⟨⟨5, 1000, [], ⟨1, 0⟩⟩,
      ⟨[⟨"a", "1", 1⟩, ⟨"b", "2", 2⟩],
       [{ ctxDone := true, rows := [⟨"a", "1", 1⟩, ⟨"b", "2", 2⟩] }], []⟩, true, .Stopped⟩
    [.run, .enqueue "a" "1" 1, .enqueue "b" "2" 2, .cancel] none
    (by decide) rfl (by decide)).2.2⟩

/-! ## The handlers -/

theorem writeHandler_ok (h : Handler) (now : Int) (cf : Option CacheError) (req : WriteReq) :
    h.writeHandler now cf { method := "POST", decoded := .ok req }
      = ({ h with
            cache := (h.cache.Set now cf req.UserID req.Value).1,
            batcher := h.batcher.Enqueue req.UserID req.Value
                         (if req.Ts = 0 then now else req.Ts) },
         { status := 202, body := "accepted" }) := by
  unfold Handler.writeHandler
  by_cases hz : req.Ts = 0 <;> simp [hz]

/-- C4: `writeHandler` does not do what the claim requires.  The body `{}` decodes to a
request with empty `user_id` and `value`; the handler answers 202 "accepted", not 400,
calls `Set` on the cache with the empty key and value, and enqueues one record.  The same
happens when only `value` is missing.  The read side of the same handler treats both as
missing: `readHandler` on that state answers 400 for the empty key, and for `u1` takes
the empty cached value for a miss and goes to the store. -/
theorem write_empty_body_is_accepted :
    (Handler.fresh.writeHandler 1700000000 none
        { method := "POST", decoded := .ok WriteReq.zero }).2
      = { status := 202, body := "accepted" } ∧
    (Handler.fresh.writeHandler 1700000000 none
        { method := "POST", decoded := .ok WriteReq.zero }).1.cache.ops = [.set "" ""] ∧
    (Handler.fresh.writeHandler 1700000000 none
        { method := "POST", decoded := .ok WriteReq.zero }).1.batcher.queue
      = [⟨"", "", 1700000000⟩] ∧
    (Handler.fresh.writeHandler 1700000000 none
        { method := "POST", decoded := .ok ⟨"u1", "", 0⟩ }).2.status = 202 ∧
    (Handler.fresh.writeHandler 1700000000 none
        { method := "POST", decoded := .ok ⟨"u1", "", 0⟩ }).1.batcher.queue
      = [⟨"u1", "", 1700000000⟩] ∧
    ((Handler.fresh.writeHandler 1700000000 none
        { method := "POST", decoded := .ok WriteReq.zero }).1.readHandler
        1700000000 none none "").2.status = 400 ∧
    ((Handler.fresh.writeHandler 1700000000 none
        { method := "POST", decoded := .ok ⟨"u1", "", 0⟩ }).1.readHandler
        1700000000 none none "u1").1.db.lookups = ["u1"] := by
  decide

/-- C7: for a `POST` whose body decodes to `req`, whatever the cache `Set` returns, the
handler answers 202 with body "accepted"; the batcher is the old one after one `Enqueue`,
so its queue is the old queue followed by exactly one record with the `UserID` and `Value`
of the request and `Ts` equal to the request's `ts` when that is non-zero and to the
current Unix time when it is zero; the store is untouched (no `InsertBatch`, no flush). -/
theorem writeHandler_accepted_effect (h : Handler) (now : Int) (cf : Option CacheError)
    (req : WriteReq) :
    (h.writeHandler now cf { method := "POST", decoded := .ok req }).2
      = { status := 202, body := "accepted" } ∧
    (h.writeHandler now cf { method := "POST", decoded := .ok req }).1.batcher
      = h.batcher.Enqueue req.UserID req.Value (if req.Ts = 0 then now else req.Ts) ∧
    (h.writeHandler now cf { method := "POST", decoded := .ok req }).1.batcher.queue
      = h.batcher.queue ++
          [{ UserID := req.UserID, Value := req.Value,
             Ts := if req.Ts = 0 then now else req.Ts }] ∧
    (req.Ts ≠ 0 →
      (h.writeHandler now cf { method := "POST", decoded := .ok req }).1.batcher.queue
        = h.batcher.queue ++ [{ UserID := req.UserID, Value := req.Value, Ts := req.Ts }]) ∧
    (req.Ts = 0 →
      (h.writeHandler now cf { method := "POST", decoded := .ok req }).1.batcher.queue
        = h.batcher.queue ++ [{ UserID := req.UserID, Value := req.Value, Ts := now }]) ∧
    (h.writeHandler now cf { method := "POST", decoded := .ok req }).1.db = h.db ∧
    (h.writeHandler now cf { method := "POST", decoded := .ok req }).1.cache.ops
      = h.cache.ops ++ [.set req.UserID req.Value] := by
  rw [writeHandler_ok]
  refine ⟨rfl, rfl, Enqueue_queue _ _ _ _, ?_, ?_, rfl, ?_⟩
  · intro hz
    simp only [Enqueue_queue, if_neg hz]
  · intro hz
    simp only [Enqueue_queue, if_pos hz]
  · unfold Cache.Set
    cases cf <;> rfl

/-- Witness of C7: the two accepted requests of `TestWriteHandler`, the cache failing. -/
theorem writeHandler_accepted_effect_witness :
    (Handler.fresh.writeHandler 1700000000 (some (.Other "refused"))
        { method := "POST", decoded := .ok ⟨"test2", "world", 1234567890⟩ }).1.batcher.queue
      = [⟨"test2", "world", 1234567890⟩] ∧
    (Handler.fresh.writeHandler 1700000000 (some (.Other "refused"))
        { method := "POST", decoded := .ok ⟨"test1", "hello", 0⟩ }).1.batcher.queue
      = [⟨"test1", "hello", 1700000000⟩] :=
  ⟨(writeHandler_accepted_effect Handler.fresh 1700000000 (some (.Other "refused"))
      ⟨"test2", "world", 1234567890⟩).2.2.2.1 (by decide),
   (writeHandler_accepted_effect Handler.fresh 1700000000 (some (.Other "refused"))
      ⟨"test1", "hello", 0⟩).2.2.2.2.1 rfl⟩

theorem Set_entries_ok (c : Cache) (now : Int) (key val : String) :
    (c.Set now none key val).1.entries
      = { key := key, value := val, expiresAt := now + Cache.ttl } ::
          c.entries.filter (fun e => e.key ≠ key) := rfl

theorem Get_after_Set (c : Cache) (now now2 : Int) (key val : String)
    (hlive : now2 < now + Cache.ttl) :
    ((c.Set now none key val).1.Get now2 none key).2 = .ok val := by
  unfold Cache.Get
  simp only [Set_entries_ok]
  simp [List.find?, hlive]

/-- C5, as stated, fails for an empty value and for an empty key: after a write of
`("u1", "")` answered 202 with a working cache, the immediate read of `u1` consults the
store and answers 404; after a write with key `""` answered 202, the read answers 400. -/
theorem empty_field_read_misses_cache :
    (Handler.fresh.writeHandler 1700000000 none
        { method := "POST", decoded := .ok ⟨"u1", "", 0⟩ }).2.status = 202 ∧
    ((Handler.fresh.writeHandler 1700000000 none
        { method := "POST", decoded := .ok ⟨"u1", "", 0⟩ }).1.readHandler
        1700000000 none none "u1").2 = { status := 404, body := "not found\n" } ∧
    ((Handler.fresh.writeHandler 1700000000 none
        { method := "POST", decoded := .ok ⟨"u1", "", 0⟩ }).1.readHandler
        1700000000 none none "u1").1.db.lookups = ["u1"] ∧
    (Handler.fresh.writeHandler 1700000000 none
        { method := "POST", decoded := .ok ⟨"", "v", 0⟩ }).2.status = 202 ∧
    ((Handler.fresh.writeHandler 1700000000 none
        { method := "POST", decoded := .ok ⟨"", "v", 0⟩ }).1.readHandler
        1700000000 none none "").2 = { status := 400, body := "missing user_id\n" } := by
  decide

/-- C5, amended: for a non-empty key and a non-empty value, a write at time `now` on
which the cache `Set` succeeds is answered 202, and a read of the same key at a time
`now2` before the expiry of the entry (`now + 5 minutes`), on which the cache `Get`
answers without an adapter error, returns 200 with exactly the written value; the store
is not consulted by either request (whatever it would have answered). -/
theorem write_then_read (h : Handler) (now now2 : Int) (df : Option DBError) (req : WriteReq)
    (hk : req.UserID ≠ "") (hv : req.Value ≠ "") (hlive : now2 < now + Cache.ttl) :
    (h.writeHandler now none { method := "POST", decoded := .ok req }).2.status = 202 ∧
    ((h.writeHandler now none { method := "POST", decoded := .ok req }).1.readHandler
        now2 none df req.UserID).2 = { status := 200, body := req.Value } ∧
    ((h.writeHandler now none { method := "POST", decoded := .ok req }).1.readHandler
        now2 none df req.UserID).1.db = h.db := by
  rw [writeHandler_ok]
  have hget := Get_after_Set h.cache now now2 req.UserID req.Value hlive
  refine ⟨rfl, ?_, ?_⟩
  · unfold Handler.readHandler
    simp only [hk, if_false, hget]
    simp [hv]
  · unfold Handler.readHandler
    simp only [hk, if_false, hget]
    simp [hv]

/-- Witness of C5 amended: write `("u1", "hello")`, read `u1` four minutes later. -/
theorem write_then_read_witness :
    ((Handler.fresh.writeHandler 1700000000 none
        { method := "POST", decoded := .ok ⟨"u1", "hello", 0⟩ }).1.readHandler
        1700000240 none none "u1").2 = { status := 200, body := "hello" } :=
  (write_then_read Handler.fresh 1700000000 1700000240 none ⟨"u1", "hello", 0⟩
    (by decide) (by decide) (by decide)).2.1

theorem GetLatest_lookups (d : DB) (f : Option DBError) (user : String) :
    (d.GetLatest f user).1 = { d with lookups := d.lookups ++ [user] } := by
  unfold DB.GetLatest
  cases f with
  | some e => rfl
  | none =>
    dsimp only
    split <;> rfl

theorem Get_cache (c : Cache) (now : Int) (f : Option CacheError) (key : String) :
    (c.Get now f key).1 = { c with ops := c.ops ++ [.get key] } := by
  unfold Cache.Get
  cases f with
  | some e => rfl
  | none =>
    dsimp only
    split
    · rfl
    · split <;> rfl

theorem readFallback_eq (h1 : Handler) (df : Option DBError) (user : String) :
    h1.readFallback df user
      = ({ h1 with db := { h1.db with lookups := h1.db.lookups ++ [user] } },
         match (h1.db.GetLatest df user).2 with
         | .error .ErrNoRows => httpError "not found" 404
         | .error _ => httpError "db error" 500
         | .ok rec => { status := 200, body := rec.Value }) := by
  unfold Handler.readFallback
  dsimp only
  rw [GetLatest_lookups]
  generalize (h1.db.GetLatest df user).2 = g
  rcases g with e | r
  · cases e <;> rfl
  · rfl

theorem readHandler_hit (h : Handler) (now : Int) (cf : Option CacheError)
    (df : Option DBError) (user val : String) (hu : user ≠ "")
    (hg : (h.cache.Get now cf user).2 = .ok val) (hv : val ≠ "") :
    h.readHandler now cf df user
      = ({ h with cache := { h.cache with ops := h.cache.ops ++ [.get user] } },
         { status := 200, body := val }) := by
  unfold Handler.readHandler
  dsimp only
  rw [Get_cache]
  simp only [hu, if_false, hg]
  simp [hv]

theorem readHandler_miss (h : Handler) (now : Int) (cf : Option CacheError)
    (df : Option DBError) (user : String) (hu : user ≠ "")
    (hg : (∃ e, (h.cache.Get now cf user).2 = .error e) ∨
      (h.cache.Get now cf user).2 = .ok "") :
    h.readHandler now cf df user
      = ({ h with cache := { h.cache with ops := h.cache.ops ++ [.get user] } } :
          Handler).readFallback df user := by
  unfold Handler.readHandler
  dsimp only
  rw [Get_cache]
  rcases hg with ⟨e, he⟩ | he
  · simp only [hu, if_false, he]
  · simp only [hu, if_false, he]
    simp

/-- C6: `readHandler` with an empty `user_id` answers 400 and touches neither cache nor
store.  Otherwise the cache `Get` is called once; when it returns a non-empty value
without error the answer is 200 with that value and the store is not queried; in every
other case (an error of any kind from the cache, or an empty value) `GetLatest` is
queried once and the answer is 200 with the record's value when a record is returned,
404 when the store returns `ErrNoRows`, and 500 on any other store error, so an error of
the cache never shows in the answer.  The batcher is never touched. -/
theorem readHandler_outcome (h : Handler) (now : Int) (cf : Option CacheError)
    (df : Option DBError) (user : String) :
    (user = "" →
      h.readHandler now cf df user = (h, { status := 400, body := "missing user_id\n" })) ∧
    (user ≠ "" →
      (h.readHandler now cf df user).1.cache.ops = h.cache.ops ++ [.get user] ∧
      (h.readHandler now cf df user).1.batcher = h.batcher ∧
      (∀ val, (h.cache.Get now cf user).2 = .ok val → val ≠ "" →
        (h.readHandler now cf df user).2 = { status := 200, body := val } ∧
        (h.readHandler now cf df user).1.db = h.db) ∧
      (((∃ e, (h.cache.Get now cf user).2 = .error e) ∨
          (h.cache.Get now cf user).2 = .ok "") →
        (h.readHandler now cf df user).1.db
          = { h.db with lookups := h.db.lookups ++ [user] } ∧
        (∀ rec, (h.db.GetLatest df user).2 = .ok rec →
          (h.readHandler now cf df user).2 = { status := 200, body := rec.Value }) ∧
        ((h.db.GetLatest df user).2 = .error .ErrNoRows →
          (h.readHandler now cf df user).2 = { status := 404, body := "not found\n" }) ∧
        (∀ e, (h.db.GetLatest df user).2 = .error e → e ≠ .ErrNoRows →
          (h.readHandler now cf df user).2 = { status := 500, body := "db error\n" }))) := by
  have e400 : httpError "missing user_id" 400
      = { status := 400, body := "missing user_id\n" } := by decide
  have e404 : httpError "not found" 404 = { status := 404, body := "not found\n" } := by
    decide
  have e500 : httpError "db error" 500 = { status := 500, body := "db error\n" } := by
    decide
  rw [← e400, ← e404, ← e500]
  constructor
  · intro hu
    simp [Handler.readHandler, hu]
  · intro hu
    have hmissAll : ((∃ e, (h.cache.Get now cf user).2 = .error e) ∨
          (h.cache.Get now cf user).2 = .ok "") →
        (h.readHandler now cf df user).1.cache.ops = h.cache.ops ++ [.get user] ∧
        (h.readHandler now cf df user).1.batcher = h.batcher ∧
        (h.readHandler now cf df user).1.db
          = { h.db with lookups := h.db.lookups ++ [user] } ∧
        (∀ rec, (h.db.GetLatest df user).2 = .ok rec →
          (h.readHandler now cf df user).2 = { status := 200, body := rec.Value }) ∧
        ((h.db.GetLatest df user).2 = .error .ErrNoRows →
          (h.readHandler now cf df user).2 = httpError "not found" 404) ∧
        (∀ e, (h.db.GetLatest df user).2 = .error e → e ≠ .ErrNoRows →
          (h.readHandler now cf df user).2 = httpError "db error" 500) := by
      intro hmiss
      rw [readHandler_miss h now cf df user hu hmiss, readFallback_eq]
      refine ⟨rfl, rfl, rfl, ?_, ?_, ?_⟩
      · intro rec hrec
        show (match (h.db.GetLatest df user).2 with
          | .error .ErrNoRows => httpError "not found" 404
          | .error _ => httpError "db error" 500
          | .ok rec => ({ status := 200, body := rec.Value } : Response)) = _
        rw [hrec]
      · intro hrec
        show (match (h.db.GetLatest df user).2 with
          | .error .ErrNoRows => httpError "not found" 404
          | .error _ => httpError "db error" 500
          | .ok rec => ({ status := 200, body := rec.Value } : Response)) = _
        rw [hrec]
      · intro e hrec hne
        show (match (h.db.GetLatest df user).2 with
          | .error .ErrNoRows => httpError "not found" 404
          | .error _ => httpError "db error" 500
          | .ok rec => ({ status := 200, body := rec.Value } : Response)) = _
        rw [hrec]
        cases e with
        | ErrNoRows => exact absurd rfl hne
        | Other msg => rfl
    cases hg : (h.cache.Get now cf user).2 with
    | error e =>
      have hm := hmissAll (Or.inl ⟨e, hg⟩)
      refine ⟨hm.1, hm.2.1, ?_, fun _ => hm.2.2⟩
      intro val h2
      cases h2
    | ok val =>
      by_cases hv : val = ""
      · subst hv
        have hm := hmissAll (Or.inr hg)
        refine ⟨hm.1, hm.2.1, ?_, fun _ => hm.2.2⟩
        intro val h2 hne
        cases h2
        exact absurd rfl hne
      · have hhit := readHandler_hit h now cf df user val hu hg hv
        rw [hhit]
        refine ⟨rfl, rfl, ?_, ?_⟩
        · intro val2 h2 _
          cases h2
          exact ⟨rfl, rfl⟩
        · intro hor
          rcases hor with ⟨e, he⟩ | he
          · cases he
          · cases he
            exact absurd rfl hv

/-- Witness of C6: the two cases of `TestReadHandler` on an empty cache and store. -/
theorem readHandler_outcome_witness :
    Handler.fresh.readHandler 1700000000 none none ""
      = (Handler.fresh, { status := 400, body := "missing user_id\n" }) ∧
    (Handler.fresh.readHandler 1700000000 none none "nonexistent").2
      = { status := 404, body := "not found\n" } :=
  ⟨(readHandler_outcome Handler.fresh 1700000000 none none "").1 rfl,
   (((readHandler_outcome Handler.fresh 1700000000 none none "nonexistent").2
      (by decide)).2.2.2 (Or.inl ⟨.Nil, rfl⟩)).2.2.1 rfl⟩

/-! ## The goroutine-level model -/

theorem any_of_getElem? {l : List Pc} {p : Pc → Bool} {j : Nat} {pc : Pc}
    (h : l[j]? = some pc) (hp : p pc = true) : l.any p = true := by
  rw [List.any_eq_true]
  exact ⟨pc, List.getElem?_mem h, hp⟩

theorem exists_of_any {l : List Pc} {p : Pc → Bool} (h : l.any p = true) :
    ∃ (j : Nat) (pc : Pc), l[j]? = some pc ∧ p pc = true := by
  rw [List.any_eq_true] at h
  obtain ⟨pc, hmem, hp⟩ := h
  obtain ⟨j, hj⟩ := List.getElem?_of_mem hmem
  exact ⟨j, pc, hj, hp⟩

theorem any_set_new {l : List Pc} {p : Pc → Bool} {i : Nat} {x a : Pc}
    (hi : l[i]? = some x) (hp : p a = true) : (l.set i a).any p = true := by
  have hlt : i < l.length := by
    obtain ⟨h, _⟩ := List.getElem?_eq_some.mp hi
    exact h
  exact any_of_getElem? (List.getElem?_set_self hlt) hp

theorem any_set_old {l : List Pc} {p : Pc → Bool} {i : Nat} {x a : Pc}
    (h : l.any p = true) (hi : l[i]? = some x) (hx : p x = false) :
    (l.set i a).any p = true := by
  obtain ⟨j, pc, hj, hp⟩ := exists_of_any h
  have hne : i ≠ j := by
    intro hij
    subst hij
    rw [hi] at hj
    cases hj
    rw [hx] at hp
    cases hp
  apply any_of_getElem? _ hp
  · exact j
  · rw [List.getElem?_set_ne hne]
    exact hj

theorem any_concat {l : List Pc} {p : Pc → Bool} (a : Pc) (h : l.any p = true) :
    (l ++ [a]).any p = true := by
  simp [List.any_append, h]

theorem covered_threads {S : Int} {s : Conc} (t : List Pc) (hc : s.Covered S)
    (h1 : s.threads.any Pc.willSignal = true → t.any Pc.willSignal = true)
    (h2 : s.threads.any Pc.willTake = true → t.any Pc.willTake = true) :
    Conc.Covered S { s with threads := t } := by
  obtain ⟨hb, hcap, himp⟩ := hc
  refine ⟨hb, hcap, ?_⟩
  intro hge
  rcases himp hge with h | h | h
  · exact Or.inl h
  · exact Or.inr (Or.inl (h1 h))
  · exact Or.inr (Or.inr (h2 h))

theorem step_covered {S : Int} (hS : 1 ≤ S) (s s1 : Conc) (m : Move)
    (h : s.step m = some s1) (hc : s.Covered S) : s1.Covered S := by
  cases m with
  | call user val ts =>
    simp only [Conc.step, Option.some.injEq] at h
    subst h
    exact covered_threads _ hc (any_concat _) (any_concat _)
  | run =>
    simp only [Conc.step] at h
    split at h
    · cases h
      exact covered_threads _ hc (any_concat _) (any_concat _)
    · cases h
  | cancel =>
    simp only [Conc.step, Option.some.injEq] at h
    subst h
    exact hc
  | lock i =>
    simp only [Conc.step] at h
    split at h
    · cases h
    · split at h
      · rename_i r hi
        cases h
        exact covered_threads (s := { s with mu := true }) _ hc
          (fun ha => any_set_old ha hi rfl) (fun ha => any_set_old ha hi rfl)
      · rename_i fin hi
        cases h
        exact covered_threads (s := { s with mu := true }) _ hc
          (fun ha => any_set_old ha hi rfl) (fun _ => any_set_new hi rfl)
      · cases h
  | append i =>
    simp only [Conc.step] at h
    split at h
    · rename_i r hi
      cases h
      obtain ⟨hb, hcap, himp⟩ := hc
      refine ⟨hb, hcap, ?_⟩
      intro hge
      right; left
      apply any_set_new hi
      have : (s.b.enqueueLocked r.UserID r.Value r.Ts).2 = true := by
        simp only [Batcher.enqueueLocked, decide_eq_true_eq, hb]
        simpa [Batcher.enqueueLocked] using hge
      simp [this, Pc.willSignal]
    · cases h
  | post i =>
    simp only [Conc.step] at h
    split at h
    · rename_i sf hi
      cases h
      obtain ⟨hb, hcap, himp⟩ := hc
      cases sf with
      | false =>
        have hp : s.b.post false = s.b := by simp [Batcher.post]
        simp only [hp]
        exact covered_threads _ ⟨hb, hcap, himp⟩
          (fun ha => any_set_old ha hi rfl) (fun ha => any_set_old ha hi rfl)
      | true =>
        refine ⟨hb, ?_, ?_⟩
        · simp only [Batcher.post, Chan.trySend, if_true]
          split <;> exact hcap
        · intro _
          left
          clear himp
          simp only [Conc.signalled, Batcher.post, Chan.trySend, if_true, decide_eq_true_eq]
          split
          · exact Nat.succ_pos _
          · rename_i hlt
            omega
    · cases h
  | wake i w =>
    simp only [Conc.step] at h
    split at h
    · rename_i hi
      obtain ⟨hb, hcap, himp⟩ := hc
      cases w with
      | Done =>
        simp only at h
        split at h
        · cases h
          exact ⟨hb, hcap, fun _ => Or.inr (Or.inr (any_set_new hi rfl))⟩
        · cases h
      | Signal =>
        simp only at h
        split at h
        · cases h
        · rename_i c hr
          cases h
          refine ⟨hb, ?_, fun _ => Or.inr (Or.inr (any_set_new hi rfl))⟩
          simp only [Chan.recv] at hr
          split at hr
          · cases hr
            exact hcap
          · cases hr
      | Tick =>
        simp only [Option.some.injEq] at h
        subst h
        exact ⟨hb, hcap, fun _ => Or.inr (Or.inr (any_set_new hi rfl))⟩
    · cases h
  | take i =>
    simp only [Conc.step] at h
    split at h
    · rename_i fin hi
      obtain ⟨hb, hcap, himp⟩ := hc
      have hq : s.b.take.1.queue = [] ∧ s.b.take.1.batchSize = s.b.batchSize ∧
          s.b.take.1.ch = s.b.ch := by
        unfold Batcher.take
        split
        · rename_i h0
          exact ⟨List.length_eq_zero.mp h0, rfl, rfl⟩
        · exact ⟨rfl, rfl, rfl⟩
      split at h
      · rename_i b1 ht
        cases h
        have hb1 : b1 = s.b.take.1 := by rw [ht]
        refine ⟨by rw [hb1, hq.2.1]; exact hb, by rw [hb1, hq.2.2]; exact hcap, ?_⟩
        intro hge
        simp only [hb1, hq.1, List.length_nil] at hge
        omega
      · rename_i b1 tw ht
        cases h
        have hb1 : b1 = s.b.take.1 := by rw [ht]
        refine ⟨by rw [hb1, hq.2.1]; exact hb, by rw [hb1, hq.2.2]; exact hcap, ?_⟩
        intro hge
        simp only [hb1, hq.1, List.length_nil] at hge
        omega
    · cases h
  | insert i fault =>
    simp only [Conc.step] at h
    split at h
    · rename_i tw fin hi
      cases h
      exact covered_threads (s := { s with d := _ }) _ hc
        (fun ha => any_set_old ha hi rfl) (fun ha => any_set_old ha hi rfl)
    · cases h

theorem init_eq_some {S T : Int} {d0 : DB} {s0 : Conc} (h : Conc.init S T d0 = some s0) :
    s0 = { b := { batchSize := S, interval := T, queue := [], ch := { cap := 1, len := 0 } },
           d := d0, ctxDone := false, mu := false, threads := [] } := by
  unfold Conc.init at h
  cases hn : Batcher.New S T with
  | none => simp [hn] at h
  | some b =>
    simp only [hn, Option.some.injEq] at h
    rw [← h, New_eq_some hn]

theorem cexec_append (ms ns : List Move) : ∀ s : Conc,
    s.exec (ms ++ ns) = (s.exec ms).bind (fun s1 => s1.exec ns) := by
  induction ms with
  | nil => intro s; simp [Conc.exec]
  | cons m ms ih =>
    intro s
    simp only [List.cons_append, Conc.exec]
    cases s.step m with
    | none => simp
    | some s2 => simpa using ih s2

theorem exec_covered {S : Int} (hS : 1 ≤ S) (ms : List Move) : ∀ s s1 : Conc,
    s.exec ms = some s1 → s.Covered S → s1.Covered S := by
  induction ms with
  | nil =>
    intro s s1 h hc
    simp only [Conc.exec, Option.some.injEq] at h
    subst h
    exact hc
  | cons m ms ih =>
    intro s s1 h hc
    simp only [Conc.exec] at h
    split at h
    · cases h
    · rename_i s2 hs
      exact ih s2 s1 h (step_covered hS s s2 m hs hc)

theorem quiet_none (s : Conc) (hq : s.quiet = true) :
    s.threads.any Pc.willSignal = false ∧ s.threads.any Pc.willTake = false := by
  unfold Conc.quiet at hq
  rw [List.all_eq_true] at hq
  constructor
  · rw [Bool.eq_false_iff]
    intro h
    rw [List.any_eq_true] at h
    obtain ⟨pc, hmem, hp⟩ := h
    have := hq pc hmem
    cases pc <;> simp_all [Pc.willSignal, Pc.isPosting]
  · rw [Bool.eq_false_iff]
    intro h
    rw [List.any_eq_true] at h
    obtain ⟨pc, hmem, hp⟩ := h
    have := hq pc hmem
    cases pc <;> simp_all [Pc.willTake, Pc.isPosting, Pc.isRun]

theorem signal_flush (s : Conc) (i : Nat) (hw : s.threads[i]? = some .runWaiting)
    (hsig : s.signalled = true) :
    s.step (.wake i .Signal)
      = some { s with b := { s.b with ch := { s.b.ch with len := s.b.ch.len - 1 } },
                      threads := s.threads.set i (.runWoken false) } := by
  have hpos : 0 < s.b.ch.len := by simpa [Conc.signalled] using hsig
  simp [Conc.step, hw, Chan.recv, hpos]

theorem signal_drains (s : Conc) (i : Nat) (hw : s.threads[i]? = some .runWaiting)
    (hsig : s.signalled = true) (hmu : s.mu = false) (hne : s.b.queue ≠ []) :
    s.exec [.wake i .Signal, .lock i, .take i]
      = some { s with b := { s.b with queue := [], ch := { s.b.ch with len := s.b.ch.len - 1 } },
                      threads := s.threads.set i (.runInserting s.b.queue false) } := by
  have hlt : i < s.threads.length := (List.getElem?_eq_some.mp hw).1
  have hl : ¬ s.b.queue.length = 0 := fun h0 => hne (List.length_eq_zero.mp h0)
  simp only [Conc.exec, signal_flush s i hw hsig]
  simp [Conc.step, hmu, hlt, Batcher.take, hl, List.set_set]

theorem signal_noop (s : Conc) (i : Nat) (hw : s.threads[i]? = some .runWaiting)
    (hsig : s.signalled = true) (hmu : s.mu = false) (hnil : s.b.queue = []) :
    s.exec [.wake i .Signal, .lock i, .take i]
      = some { s with b := { s.b with ch := { s.b.ch with len := s.b.ch.len - 1 } },
                      threads := s.threads.set i .runWaiting } := by
  have hlt : i < s.threads.length := (List.getElem?_eq_some.mp hw).1
  simp only [Conc.exec, signal_flush s i hw hsig]
  simp [Conc.step, hmu, hlt, Batcher.take, hnil, List.set_set, Pc.afterFlush]

theorem countP_set_same (p : Pc → Bool) : ∀ (l : List Pc) (i : Nat) (a x : Pc),
    l[i]? = some x → p a = p x → (l.set i a).countP p = l.countP p := by
  intro l
  induction l with
  | nil => intro i a x h; simp at h
  | cons y t ih =>
    intro i a x h hp
    cases i with
    | zero =>
      simp only [List.getElem?_cons_zero, Option.some.injEq] at h
      subst h
      simp [List.countP_cons, hp]
    | succ n =>
      simp only [List.getElem?_cons_succ] at h
      simp [List.countP_cons, ih n a x h hp]

theorem countP_le_one_unique {p : Pc → Bool} :
    ∀ (l : List Pc) (i j : Nat) (x y : Pc), l.countP p ≤ 1 → l[i]? = some x →
      l[j]? = some y → p x = true → p y = true → i = j := by
  intro l
  induction l with
  | nil => intro i j x y _ h; simp at h
  | cons a t ih =>
    intro i j x y hc hi hj hx hy
    have hpos : ∀ (n : Nat) (z : Pc), t[n]? = some z → p z = true → 0 < t.countP p := by
      intro n z hz hpz
      rw [List.countP_pos_iff]
      exact ⟨z, List.getElem?_mem hz, hpz⟩
    cases i with
    | zero =>
      cases j with
      | zero => rfl
      | succ m =>
        simp only [List.getElem?_cons_zero, Option.some.injEq] at hi
        simp only [List.getElem?_cons_succ] at hj
        subst hi
        rw [List.countP_cons] at hc
        simp only [hx, if_true] at hc
        have := hpos m y hj hy
        omega
    | succ n =>
      cases j with
      | zero =>
        simp only [List.getElem?_cons_zero, Option.some.injEq] at hj
        simp only [List.getElem?_cons_succ] at hi
        subst hj
        rw [List.countP_cons] at hc
        simp only [hy, if_true] at hc
        have := hpos n x hi hx
        omega
      | succ m =>
        simp only [List.getElem?_cons_succ] at hi hj
        have hc2 : t.countP p ≤ 1 := by
          rw [List.countP_cons] at hc
          omega
        rw [ih n m x y hc2 hi hj hx hy]

theorem step_runs (s s1 : Conc) (m : Move) (h : s.step m = some s1) :
    s1.threads.countP Pc.isRun = s.threads.countP Pc.isRun + (if m.isRun then 1 else 0) := by
  cases m with
  | call user val ts =>
    simp only [Conc.step, Option.some.injEq] at h
    subst h
    simp [Move.isRun, Pc.isRun]
  | run =>
    simp only [Conc.step] at h
    split at h
    · cases h
      simp [Move.isRun, Pc.isRun]
    · cases h
  | cancel =>
    simp only [Conc.step, Option.some.injEq] at h
    subst h
    simp [Move.isRun]
  | lock i =>
    simp only [Conc.step] at h
    split at h
    · cases h
    · split at h
      · rename_i r hi
        cases h
        exact countP_set_same Pc.isRun s.threads i _ _ hi rfl
      · rename_i fin hi
        cases h
        exact countP_set_same Pc.isRun s.threads i _ _ hi rfl
      · cases h
  | append i =>
    simp only [Conc.step] at h
    split at h
    · rename_i r hi
      cases h
      exact countP_set_same Pc.isRun s.threads i _ _ hi rfl
    · cases h
  | post i =>
    simp only [Conc.step] at h
    split at h
    · rename_i sf hi
      cases h
      exact countP_set_same Pc.isRun s.threads i _ _ hi rfl
    · cases h
  | wake i w =>
    simp only [Conc.step] at h
    split at h
    · rename_i hi
      cases w with
      | Done =>
        simp only at h
        split at h
        · cases h
          exact countP_set_same Pc.isRun s.threads i _ _ hi rfl
        · cases h
      | Signal =>
        simp only at h
        split at h
        · cases h
        · cases h
          exact countP_set_same Pc.isRun s.threads i _ _ hi rfl
      | Tick =>
        simp only [Option.some.injEq] at h
        subst h
        exact countP_set_same Pc.isRun s.threads i _ _ hi rfl
    · cases h
  | take i =>
    simp only [Conc.step] at h
    split at h
    · rename_i fin hi
      have haf : Pc.isRun (Pc.afterFlush fin) = Pc.isRun (.runLocked fin) := by
        cases fin <;> rfl
      split at h
      · cases h
        exact countP_set_same Pc.isRun s.threads i _ _ hi haf
      · cases h
        exact countP_set_same Pc.isRun s.threads i _ _ hi rfl
    · cases h
  | insert i fault =>
    simp only [Conc.step] at h
    split at h
    · rename_i tw fin hi
      have haf : Pc.isRun (Pc.afterFlush fin) = Pc.isRun (.runInserting tw fin) := by
        cases fin <;> rfl
      cases h
      exact countP_set_same Pc.isRun s.threads i _ _ hi haf
    · cases h

theorem exec_runs (ms : List Move) : ∀ s s1 : Conc, s.exec ms = some s1 →
    s1.threads.countP Pc.isRun = s.threads.countP Pc.isRun + ms.countP Move.isRun := by
  induction ms with
  | nil =>
    intro s s1 h
    simp only [Conc.exec, Option.some.injEq] at h
    subst h
    simp
  | cons m ms ih =>
    intro s s1 h
    simp only [Conc.exec] at h
    split at h
    · cases h
    · rename_i s2 hs
      rw [ih s2 s1 h, step_runs s s2 m hs, List.countP_cons]
      omega

theorem inFlush_le_isRun (l : List Pc) : l.countP Pc.inFlush ≤ l.countP Pc.isRun := by
  apply List.countP_mono_left
  intro x _ hx
  cases x <;> simp_all [Pc.inFlush, Pc.isRun]

theorem countP_set_bal (p : Pc → Bool) : ∀ (l : List Pc) (i : Nat) (a x : Pc),
    l[i]? = some x →
    (l.set i a).countP p + (if p x then 1 else 0) = l.countP p + (if p a then 1 else 0) := by
  intro l
  induction l with
  | nil => intro i a x h; simp at h
  | cons y t ih =>
    intro i a x h
    cases i with
    | zero =>
      simp only [List.getElem?_cons_zero, Option.some.injEq] at h
      subst h
      simp only [List.set_cons_zero, List.countP_cons]
      omega
    | succ n =>
      simp only [List.getElem?_cons_succ] at h
      have := ih n a x h
      simp only [List.set_cons_succ, List.countP_cons]
      omega

theorem hold_bal (l : List Pc) (i : Nat) (a x : Pc) (ba bx : Bool)
    (hi : l[i]? = some x) (ha : Pc.holdsLock a = ba) (hx : Pc.holdsLock x = bx) :
    (l.set i a).countP Pc.holdsLock + (if bx = true then 1 else 0)
      = l.countP Pc.holdsLock + (if ba = true then 1 else 0) := by
  have := countP_set_bal Pc.holdsLock l i a x hi
  rw [ha, hx] at this
  exact this

theorem afterFlush_free (fin : Bool) : Pc.holdsLock (Pc.afterFlush fin) = false := by
  cases fin <;> rfl

theorem step_mutex (s s1 : Conc) (m : Move) (h : s.step m = some s1) (hm : s.Mutex) :
    s1.Mutex := by
  unfold Conc.Mutex at hm ⊢
  cases m with
  | call user val ts =>
    simp only [Conc.step, Option.some.injEq] at h
    subst h
    simpa [Pc.holdsLock] using hm
  | run =>
    simp only [Conc.step] at h
    split at h
    · cases h
      simpa [Pc.holdsLock] using hm
    · cases h
  | cancel =>
    simp only [Conc.step, Option.some.injEq] at h
    subst h
    exact hm
  | lock i =>
    simp only [Conc.step] at h
    split at h
    · cases h
    · rename_i hmu
      rw [if_neg hmu] at hm
      split at h
      · rename_i r hi
        cases h
        have := hold_bal s.threads i (.enqLocked r) _ true false hi rfl rfl
        simp only [↓reduceIte, Bool.false_eq_true] at this ⊢
        omega
      · rename_i fin hi
        cases h
        have := hold_bal s.threads i (.runLocked fin) _ true false hi rfl rfl
        simp only [↓reduceIte, Bool.false_eq_true] at this ⊢
        omega
      · cases h
  | append i =>
    simp only [Conc.step] at h
    split at h
    · rename_i r hi
      cases h
      have := hold_bal s.threads i
        (.enqPosting (s.b.enqueueLocked r.UserID r.Value r.Ts).2) _ false true hi rfl rfl
      simp only [↓reduceIte, Bool.false_eq_true] at this ⊢
      split at hm <;> omega
    · cases h
  | post i =>
    simp only [Conc.step] at h
    split at h
    · rename_i sf hi
      cases h
      have := hold_bal s.threads i .enqReturned _ false false hi rfl rfl
      simp only [↓reduceIte, Bool.false_eq_true] at this ⊢
      omega
    · cases h
  | wake i w =>
    simp only [Conc.step] at h
    split at h
    · rename_i hi
      have hb : ∀ b : Bool,
          (s.threads.set i (.runWoken b)).countP Pc.holdsLock
            = s.threads.countP Pc.holdsLock := by
        intro b
        have := hold_bal s.threads i (.runWoken b) _ false false hi rfl rfl
        simp only [↓reduceIte, Bool.false_eq_true] at this
        omega
      cases w with
      | Done =>
        simp only at h
        split at h
        · cases h
          simp only [hb]
          exact hm
        · cases h
      | Signal =>
        simp only at h
        split at h
        · cases h
        · cases h
          simp only [hb]
          exact hm
      | Tick =>
        simp only [Option.some.injEq] at h
        subst h
        simp only [hb]
        exact hm
    · cases h
  | take i =>
    simp only [Conc.step] at h
    split at h
    · rename_i fin hi
      split at h
      · cases h
        have := hold_bal s.threads i (Pc.afterFlush fin) _ false true hi
          (afterFlush_free fin) rfl
        simp only [↓reduceIte, Bool.false_eq_true] at this ⊢
        split at hm <;> omega
      · rename_i b1 tw ht
        cases h
        have := hold_bal s.threads i (.runInserting tw fin) _ false true hi rfl rfl
        simp only [↓reduceIte, Bool.false_eq_true] at this ⊢
        split at hm <;> omega
    · cases h
  | insert i fault =>
    simp only [Conc.step] at h
    split at h
    · rename_i tw fin hi
      cases h
      have := hold_bal s.threads i (Pc.afterFlush fin) _ false false hi
        (afterFlush_free fin) rfl
      simp only [↓reduceIte, Bool.false_eq_true] at this ⊢
      omega
    · cases h

theorem exec_mutex (ms : List Move) : ∀ s s1 : Conc, s.exec ms = some s1 → s.Mutex →
    s1.Mutex := by
  induction ms with
  | nil =>
    intro s s1 h hm
    simp only [Conc.exec, Option.some.injEq] at h
    subst h
    exact hm
  | cons m ms ih =>
    intro s s1 h hm
    simp only [Conc.exec] at h
    split at h
    · cases h
    · rename_i s2 hs
      exact ih s2 s1 h (step_mutex s s2 m hs hm)

/-- The three steps of `Enqueue` in one goroutine, run without interruption, have the
effect of `Batcher.Enqueue`. -/
theorem enqueue_completes (s : Conc) (k : Nat) (r : Record) (hmu : s.mu = false)
    (hk : s.threads[k]? = some (.enqCalled r)) :
    s.exec [.lock k, .append k, .post k]
      = some { s with b := s.b.Enqueue r.UserID r.Value r.Ts,
                      threads := s.threads.set k .enqReturned } := by
  have hlt : k < s.threads.length := (List.getElem?_eq_some.mp hk).1
  simp [Conc.exec, Conc.step, hmu, hk, hlt, List.set_set, Batcher.Enqueue]

/-- The three steps of `flush` in one goroutine (two on an empty queue), run without
interruption, have the effect of `Batcher.flush`. -/
theorem flush_completes (s : Conc) (i : Nat) (fin : Bool) (f : Option DBError)
    (hmu : s.mu = false) (hi : s.threads[i]? = some (.runWoken fin)) :
    s.exec (if s.b.queue = [] then [.lock i, .take i] else [.lock i, .take i, .insert i f])
      = some { s with b := (s.b.flush s.d s.ctxDone f).1, d := (s.b.flush s.d s.ctxDone f).2,
                      threads := s.threads.set i (Pc.afterFlush fin) } := by
  have hlt : i < s.threads.length := (List.getElem?_eq_some.mp hi).1
  by_cases hq : s.b.queue = []
  · rw [if_pos hq, flush_of_nil s.b s.d s.ctxDone f hq]
    simp [Conc.exec, Conc.step, hmu, hi, hlt, Batcher.take, hq, List.set_set]
  · have hl : ¬ s.b.queue.length = 0 := fun h0 => hq (List.length_eq_zero.mp h0)
    rw [if_neg hq, flush_of_ne_nil s.b s.d s.ctxDone f hq]
    simp [Conc.exec, Conc.step, hmu, hi, hlt, Batcher.take, hl, List.set_set]

theorem holder_exists (s : Conc) (hm : s.Mutex) (hmu : s.mu = true) :
    ∃ (j : Nat) (pc : Pc), s.threads[j]? = some pc ∧ pc.holdsLock = true := by
  unfold Conc.Mutex at hm
  rw [if_pos hmu] at hm
  have hpos : 0 < s.threads.countP Pc.holdsLock := by omega
  rw [List.countP_pos_iff] at hpos
  obtain ⟨pc, hmem, hp⟩ := hpos
  obtain ⟨j, hj⟩ := List.getElem?_of_mem hmem
  exact ⟨j, pc, hj, hp⟩

theorem enqueue_unblocked (s : Conc) (i k : Nat) (tw : List Record) (fin : Bool)
    (r : Record) (hmu : s.mu = false)
    (hi : s.threads[i]? = some (.runInserting tw fin))
    (hk : s.threads[k]? = some (.enqCalled r)) :
    ∃ s2 : Conc, s.exec [.lock k, .append k, .post k] = some s2 ∧
      s2.threads[k]? = some .enqReturned ∧
      s2.threads[i]? = some (.runInserting tw fin) ∧
      s2.b.queue.getLast? = some r ∧ s2.d = s.d := by
  have hlt : k < s.threads.length := (List.getElem?_eq_some.mp hk).1
  have hne : k ≠ i := by
    intro hki
    subst hki
    rw [hk] at hi
    cases hi
  refine ⟨_, enqueue_completes s k r hmu hk, ?_, ?_, ?_, rfl⟩
  · exact List.getElem?_set_self hlt
  · show (s.threads.set k .enqReturned)[i]? = _
    rw [List.getElem?_set_ne hne]
    exact hi
  · show (s.b.Enqueue r.UserID r.Value r.Ts).queue.getLast? = _
    rw [Enqueue_queue]
    exact List.getLast?_concat _

/-- C11: in the goroutine-level model, for every run from `New` in which `Run` is
started at most once: at most one goroutine is executing `flush` (between its call and
its return, the `InsertBatch` call included) and at most one holds `b.mu`; while an
`InsertBatch` is in progress the mutex is not held by the flushing goroutine (whoever
holds it is an `Enqueue` in its critical section), and every `Enqueue` that has been
called can run to its return, its record appended last, by steps of `Enqueue` callers
only, the `InsertBatch` still in progress.  A `Run` goroutine inside `flush` takes no
further `select` case (one event per iteration).  With two `Run` goroutines two flushes
can be in progress at once. -/
theorem flushes_serialized :
    (∀ (S T : Int) (d0 : DB) (s0 s : Conc) (ms : List Move),
      Conc.init S T d0 = some s0 → s0.exec ms = some s → ms.countP Move.isRun ≤ 1 →
      s.threads.countP Pc.inFlush ≤ 1 ∧
      s.threads.countP Pc.holdsLock ≤ 1 ∧
      ∀ (i : Nat) (tw : List Record) (fin : Bool),
        s.threads[i]? = some (.runInserting tw fin) →
        (∀ (j : Nat) (pc : Pc), s.threads[j]? = some pc → pc.holdsLock = true →
          ∃ r, pc = .enqLocked r) ∧
        (∀ (k : Nat) (r : Record), s.threads[k]? = some (.enqCalled r) →
          ∃ (ms2 : List Move) (s2 : Conc),
            (∀ m ∈ ms2, m.thread ≠ some i) ∧ s.exec ms2 = some s2 ∧
            s2.threads[k]? = some .enqReturned ∧
            s2.threads[i]? = some (.runInserting tw fin) ∧
            s2.b.queue.getLast? = some r ∧ s2.d = s.d)) ∧
    (∀ (s : Conc) (i : Nat) (pc : Pc) (w : Wake), s.threads[i]? = some pc →
      pc.inFlush = true → s.step (.wake i w) = none) ∧
    ((Conc.init 2 1000 DB.empty).bind (fun s0 => s0.exec
        [.run, .run, .wake 0 .Tick, .wake 1 .Tick])).map
      (fun s => s.threads.countP Pc.inFlush) = some 2 := by
  refine ⟨?_, ?_, by decide⟩
  · intro S T d0 s0 s ms hinit hexec hruns
    have h0 := init_eq_some hinit
    have hr := exec_runs ms s0 s hexec
    have hm0 : s0.Mutex := by rw [h0]; rfl
    have hm := exec_mutex ms s0 s hexec hm0
    have hrun0 : s0.threads.countP Pc.isRun = 0 := by rw [h0]; rfl
    have hfl : s.threads.countP Pc.inFlush ≤ 1 := by
      have := inFlush_le_isRun s.threads
      omega
    have hlk : s.threads.countP Pc.holdsLock ≤ 1 := by
      unfold Conc.Mutex at hm
      rw [hm]
      split <;> omega
    refine ⟨hfl, hlk, ?_⟩
    intro i tw fin hi
    have hholder : ∀ (j : Nat) (pc : Pc), s.threads[j]? = some pc → pc.holdsLock = true →
        ∃ r, pc = .enqLocked r := by
      intro j pc hj hp
      cases pc with
      | enqLocked r => exact ⟨r, rfl⟩
      | runLocked f2 =>
        have hij := countP_le_one_unique s.threads i j _ _ hfl hi hj rfl rfl
        subst hij
        rw [hi] at hj
        cases hj
      | _ => cases hp
    refine ⟨hholder, ?_⟩
    intro k r hk
    by_cases hmu : s.mu = true
    · obtain ⟨j, pc, hj, hp⟩ := holder_exists s hm hmu
      obtain ⟨r2, hpc⟩ := hholder j pc hj hp
      subst hpc
      have hji : j ≠ i := by
        intro h; subst h; rw [hj] at hi; cases hi
      have hjk : j ≠ k := by
        intro h; subst h; rw [hj] at hk; cases hk
      have hstep : s.step (.append j)
          = some { s with b := (s.b.enqueueLocked r2.UserID r2.Value r2.Ts).1, mu := false,
                          threads := s.threads.set j
                            (.enqPosting (s.b.enqueueLocked r2.UserID r2.Value r2.Ts).2) } := by
        simp [Conc.step, hj]
      obtain ⟨s2, hex, h1, h2, h3, h4⟩ := enqueue_unblocked
        { s with b := (s.b.enqueueLocked r2.UserID r2.Value r2.Ts).1, mu := false,
                 threads := s.threads.set j
                   (.enqPosting (s.b.enqueueLocked r2.UserID r2.Value r2.Ts).2) }
        i k tw fin r rfl
        (by show (s.threads.set j _)[i]? = _
            rw [List.getElem?_set_ne hji]; exact hi)
        (by show (s.threads.set j _)[k]? = _
            rw [List.getElem?_set_ne hjk]; exact hk)
      refine ⟨[.append j, .lock k, .append k, .post k], s2, ?_, ?_, h1, h2, h3, h4⟩
      · intro m hmem
        have hki : k ≠ i := by
          intro h; subst h; rw [hk] at hi; cases hi
        simp only [List.mem_cons, List.mem_singleton, List.not_mem_nil, or_false] at hmem
        rcases hmem with h | h | h | h <;> subst h <;>
          simp [Move.thread, hji, hki]
      · rw [show ([.append j, .lock k, .append k, .post k] : List Move)
            = [.append j] ++ [.lock k, .append k, .post k] from rfl, cexec_append]
        simp only [Conc.exec, hstep, Option.some_bind]
        exact hex
    · have hmu2 : s.mu = false := by simpa using hmu
      obtain ⟨s2, hex, h1, h2, h3, h4⟩ := enqueue_unblocked s i k tw fin r hmu2 hi hk
      refine ⟨[.lock k, .append k, .post k], s2, ?_, hex, h1, h2, h3, h4⟩
      intro m hmem
      have hki : k ≠ i := by
        intro h; subst h; rw [hk] at hi; cases hi
      simp only [List.mem_cons, List.mem_singleton, List.not_mem_nil, or_false] at hmem
      rcases hmem with h | h | h <;> subst h <;> simp [Move.thread, hki]
  · intro s i pc w hi hp
    cases pc <;> simp_all [Pc.inFlush, Conc.step]

/-- Witness of C11: batch size 2, `Run` started once; one record enqueued and taken by
a timer flush whose `InsertBatch` has not returned, a second `Enqueue` just called. -/
theorem flushes_serialized_witness :
    ((Conc.init 2 1000 DB.empty).bind (fun s0 => s0.exec
        [.run, .call "a" "1" 1, .lock 1, .append 1, .post 1,
         .wake 0 .Tick, .lock 0, .take 0, .call "b" "2" 2]))
      = some ⟨⟨2, 1000, [], ⟨1, 0⟩⟩, DB.empty, false, false,
          [.runInserting [⟨"a", "1", 1⟩] false, .enqReturned, .enqCalled ⟨"b", "2", 2⟩]⟩ ∧
    List.countP Pc.inFlush
      [.runInserting [⟨"a", "1", 1⟩] false, .enqReturned, .enqCalled ⟨"b", "2", 2⟩] ≤ 1 :=
  ⟨by decide,
   (flushes_serialized.1 2 1000 DB.empty
      ⟨⟨2, 1000, [], ⟨1, 0⟩⟩, DB.empty, false, false, []⟩
      ⟨⟨2, 1000, [], ⟨1, 0⟩⟩, DB.empty, false, false,
        [.runInserting [⟨"a", "1", 1⟩] false, .enqReturned, .enqCalled ⟨"b", "2", 2⟩]⟩
      [.run, .call "a" "1" 1, .lock 1, .append 1, .post 1,
       .wake 0 .Tick, .lock 0, .take 0, .call "b" "2" 2]
      (by decide) (by decide) (by decide)).1⟩

/-- C12: in the goroutine-level model (steps: the append of an `Enqueue`, its signal
post, the `select` of `Run` taking the signal, a tick or the cancellation, the critical
section of `flush`, the return of `InsertBatch`), for every threshold `S >= 1` and every
state reachable from `New`: a queue of length at least `S` comes with a pending signal,
or an `Enqueue` that is about to post one, or a `flush` that has not yet taken the queue.
So when every `Run` goroutine waits in its `select` and no `Enqueue` is between its
append and its post, length at least `S` implies a pending signal; the signal case of a
waiting `Run` is then ready, and taking it hands the whole queue to `InsertBatch`.  The
converse fails: from a waiting `Run` with a pending signal the signalled `flush` is a
no-op on an empty queue and drains any non-empty queue, however short; and with `S = 2`
the states after two `Enqueue` and a timer flush (queue empty), and after one more
`Enqueue` (queue of length 1), are reachable with a signal pending. -/
theorem no_lost_wakeup :
    (∀ (S T : Int) (d0 : DB) (s0 s : Conc) (ms : List Move), 1 ≤ S →
      Conc.init S T d0 = some s0 → s0.exec ms = some s →
      ((s.b.queue.length : Int) ≥ S →
        s.signalled = true ∨ s.threads.any Pc.willSignal = true ∨
          s.threads.any Pc.willTake = true) ∧
      (s.quiet = true → (s.b.queue.length : Int) ≥ S →
        s.signalled = true ∧
        ∀ i, s.threads[i]? = some .runWaiting →
          (s.step (.wake i .Signal)).isSome = true ∧
          (s.mu = false →
            (s.exec [.wake i .Signal, .lock i, .take i]).map
                (fun s3 => (s3.b.queue, s3.threads[i]?))
              = some ([], some (.runInserting s.b.queue false))))) ∧
    (∀ (s : Conc) (i : Nat), s.threads[i]? = some .runWaiting → s.signalled = true →
      s.mu = false →
      (s.b.queue = [] →
        (s.exec [.wake i .Signal, .lock i, .take i]).map
            (fun s3 => (s3.b.queue, s3.d, s3.threads[i]?))
          = some ([], s.d, some .runWaiting)) ∧
      (s.b.queue ≠ [] →
        (s.exec [.wake i .Signal, .lock i, .take i]).map
            (fun s3 => (s3.b.queue, s3.threads[i]?))
          = some ([], some (.runInserting s.b.queue false)))) ∧
    ((Conc.init 2 1000 DB.empty).bind (fun s0 => s0.exec
        [.run, .call "a" "1" 1, .lock 1, .append 1, .post 1,
         .call "b" "2" 2, .lock 2, .append 2, .post 2,
         .wake 0 .Tick, .lock 0, .take 0, .insert 0 none])).map
        (fun s => (s.quiet, s.signalled, s.b.queue.length)) = some (true, true, 0) ∧
    ((Conc.init 2 1000 DB.empty).bind (fun s0 => s0.exec
        [.run, .call "a" "1" 1, .lock 1, .append 1, .post 1,
         .call "b" "2" 2, .lock 2, .append 2, .post 2,
         .wake 0 .Tick, .lock 0, .take 0, .insert 0 none,
         .call "c" "3" 3, .lock 3, .append 3, .post 3])).map
        (fun s => (s.quiet, s.signalled, s.b.queue.length)) = some (true, true, 1) := by
  refine ⟨?_, ?_, by decide, by decide⟩
  · intro S T d0 s0 s ms hS hinit hexec
    have h0 : s0.Covered S := by
      rw [init_eq_some hinit]
      refine ⟨rfl, rfl, ?_⟩
      intro hge
      simp only [List.length_nil, Nat.cast_zero] at hge
      omega
    obtain ⟨hb, hcap, himp⟩ := exec_covered hS ms s0 s hexec h0
    refine ⟨himp, ?_⟩
    intro hq hge
    have hnone := quiet_none s hq
    have hsig : s.signalled = true := by
      rcases himp hge with h | h | h
      · exact h
      · rw [hnone.1] at h; cases h
      · rw [hnone.2] at h; cases h
    refine ⟨hsig, ?_⟩
    intro i hw
    refine ⟨by rw [signal_flush s i hw hsig]; rfl, ?_⟩
    intro hmu
    have hne : s.b.queue ≠ [] := by
      intro hnil
      rw [hnil] at hge
      simp only [List.length_nil, Nat.cast_zero] at hge
      omega
    have hlt : i < s.threads.length := (List.getElem?_eq_some.mp hw).1
    rw [signal_drains s i hw hsig hmu hne]
    simp [hlt]
  · intro s i hw hsig hmu
    have hlt : i < s.threads.length := (List.getElem?_eq_some.mp hw).1
    constructor
    · intro hnil
      rw [signal_noop s i hw hsig hmu hnil]
      simp [hlt, hnil]
    · intro hne
      rw [signal_drains s i hw hsig hmu hne]
      simp [hlt]

/-- Witness of C12: batch size 2, `Run` waiting, two `Enqueue` calls completed: the
queue has reached the threshold and the signal is pending. -/
theorem no_lost_wakeup_witness :
    ((Conc.init 2 1000 DB.empty).bind (fun s0 => s0.exec
        [.run, .call "a" "1" 1, .lock 1, .append 1, .post 1,
         .call "b" "2" 2, .lock 2, .append 2, .post 2]))
      = some ⟨⟨2, 1000, [⟨"a", "1", 1⟩, ⟨"b", "2", 2⟩], ⟨1, 1⟩⟩, DB.empty, false, false,
          [.runWaiting, .enqReturned, .enqReturned]⟩ ∧
    Conc.signalled ⟨⟨2, 1000, [⟨"a", "1", 1⟩, ⟨"b", "2", 2⟩], ⟨1, 1⟩⟩, DB.empty, false, false,
          [.runWaiting, .enqReturned, .enqReturned]⟩ = true :=
  ⟨by decide,
   ((no_lost_wakeup.1 2 1000 DB.empty
      ⟨⟨2, 1000, [], ⟨1, 0⟩⟩, DB.empty, false, false, []⟩
      ⟨⟨2, 1000, [⟨"a", "1", 1⟩, ⟨"b", "2", 2⟩], ⟨1, 1⟩⟩, DB.empty, false, false,
        [.runWaiting, .enqReturned, .enqReturned]⟩
      [.run, .call "a" "1" 1, .lock 1, .append 1, .post 1,
       .call "b" "2" 2, .lock 2, .append 2, .post 2]
      (by decide) (by decide) (by decide)).2 (by decide) (by decide)).1⟩

end DSProxy
